import Mathlib

/-!
Verification of the `versioning` subsystem of the open-swag-go repository
(`pkg/versioning/diff.go`, `changelog.go`, `migration.go`, `breaking.go`).

The Go code operates on decoded JSON documents (`map[string]interface{}`).
We embed such documents as the inductive `JValue`; a Go map is an
association list with unique keys.  Go map writes (`m[k] = v`) are
modelled by `insertOver`, which overwrites the binding of an existing key,
so every list our accessors build has pairwise distinct keys, exactly as a
Go map does.  Go map reads (`m[k]`) are modelled by `alookup`.  Go map
iteration order is unspecified; the association-list order stands in for
one arbitrary but fixed iteration order.
-/

namespace Versioning

/-- A decoded JSON value (`interface{}` after `json.Unmarshal`).
Go decodes JSON numbers to `float64`; no code under verification inspects
a numeric value, so we carry an integer payload for concreteness. -/
inductive JValue where
  | jnull
  | jbool (b : Bool)
  | jnum (n : Int)
  | jstr (s : String)
  | jarr (elems : List JValue)
  | jobj (fields : List (String × JValue))
deriving Repr, BEq, Inhabited

/-- A decoded JSON object, i.e. a Go `map[string]interface{}`. -/
abbrev Obj := List (String × JValue)

/-- Go map read `m[k]`: the value bound to the key, if any. -/
def alookup : List (String × α) → String → Option α
  | [], _ => none
  | (k, v) :: rest, key => if k = key then some v else alookup rest key

/-- Go map write `m[k] = v`: overwrite the binding of `k` if present,
otherwise add it. -/
def insertOver : List (String × α) → String → α → List (String × α)
  | [], key, v => [(key, v)]
  | (k, w) :: rest, key, v =>
      if k = key then (key, v) :: rest else (k, w) :: insertOver rest key v

/-- The keys of an association list are pairwise distinct (every Go map
satisfies this). -/
def NodupKeys (l : List (String × α)) : Prop := (l.map Prod.fst).Nodup

/-- Model of `contains` from diff.go: linear search of a string slice. -/
def contains : List String → String → Bool
  | [], _ => false
  | s :: rest, item => if s = item then true else contains rest item

/-- Model of `getVersion` from diff.go: `info.version` if present and a string,
else `"unknown"`. -/
def getVersion (spec : Obj) : String :=
  match alookup spec "info" with
  | some (JValue.jobj info) =>
    match alookup info "version" with
    | some (JValue.jstr version) => version
    | _ => "unknown"
  | _ => "unknown"

/-- An operation object (`map[string]interface{}` in Go). -/
abbrev Operation := Obj

/-- A `map[method]operation` table for one path. -/
abbrev Methods := List (String × Operation)

/-- The `map[path]map[method]operation` result type of `getPaths`. -/
abbrev PathsMap := List (String × Methods)

/-- Model of `getPaths` from diff.go: flattens the `paths` section into
`map[path]map[method]operation`; a path whose methods value is not an
object still gets an (empty) entry, and operations that are not objects
are skipped. -/
def getPaths (spec : Obj) : PathsMap :=
  match alookup spec "paths" with
  | some (JValue.jobj paths) =>
    paths.foldl (fun result pm =>
      let inner : Methods :=
        match pm.2 with
        | JValue.jobj methodMap =>
          methodMap.foldl (fun acc mo =>
            match mo.2 with
            | JValue.jobj opMap => insertOver acc mo.1 opMap
            | _ => acc) []
        | _ => []
      insertOver result pm.1 inner) []
  | _ => []

/-- Model of `getRequestBody` from diff.go: `op["requestBody"]` if it is an object,
else `nil` (here `none`). -/
def getRequestBody (op : Operation) : Option Obj :=
  match alookup op "requestBody" with
  | some (JValue.jobj body) => some body
  | _ => none

/-- Model of `getRequiredFields` from diff.go: concatenates
`requestBody.content.*.schema.required` (string entries only) across all
media types, in iteration order, without deduplication. -/
def getRequiredFields (op : Operation) : List String :=
  match getRequestBody op with
  | none => []
  | some body =>
    match alookup body "content" with
    | some (JValue.jobj content) =>
      content.flatMap (fun kv =>
        match kv.2 with
        | JValue.jobj mt =>
          match alookup mt "schema" with
          | some (JValue.jobj schema) =>
            match alookup schema "required" with
            | some (JValue.jarr req) =>
              req.filterMap (fun r =>
                match r with
                | JValue.jstr s => some s
                | _ => none)
            | _ => []
          | _ => []
        | _ => [])
    | _ => []

/-- Model of `getResponseCodes` from diff.go: the keys of `op["responses"]`. -/
def getResponseCodes (op : Operation) : List String :=
  match alookup op "responses" with
  | some (JValue.jobj responses) => responses.map Prod.fst
  | _ => []

/-- Model of `getParameters` from diff.go: builds `map[name]parameter` from the
`parameters` array; entries without a string `name`, or that are not
objects, are skipped. -/
def getParameters (op : Operation) : List (String × Obj) :=
  match alookup op "parameters" with
  | some (JValue.jarr params) =>
    params.foldl (fun result p =>
      match p with
      | JValue.jobj param =>
        match alookup param "name" with
        | some (JValue.jstr name) => insertOver result name param
        | _ => result
      | _ => result) []
  | _ => []

/-- Model of `isParamRequired` from diff.go: the `required` field if it is a
boolean, else `false`. -/
def isParamRequired (param : Obj) : Bool :=
  match alookup param "required" with
  | some (JValue.jbool required) => required
  | _ => false

/-- Model of `ChangeType` from diff.go. -/
inductive ChangeType where
  | added
  | removed
  | modified
deriving Repr, DecidableEq

/-- Model of `Change` from diff.go. -/
structure Change where
  type : ChangeType
  path : String
  method : String
  description : String
  isBreaking : Bool
deriving Repr, DecidableEq

/-- Model of `BreakingChange` from diff.go. -/
structure BreakingChange where
  path : String
  method : String
  reason : String
  migration : String
deriving Repr, DecidableEq

/-- Model of `Summary` from diff.go. The Go counters are `int`s that are only ever
incremented from zero, so `Nat` is faithful. -/
structure Summary where
  addedEndpoints : Nat
  removedEndpoints : Nat
  modifiedEndpoints : Nat
  breakingChanges : Nat
deriving Repr, DecidableEq

/-- Model of `Diff` from diff.go. -/
structure Diff where
  oldVersion : String
  newVersion : String
  changes : List Change
  breaking : List BreakingChange
  summary : Summary
deriving Repr, DecidableEq

/-- The "Compare request body" block of `Differ.compareOperations`:
a removed body is breaking; a newly added body is breaking only when its
`required` field is the boolean `true`. -/
def bodyChanges (path method : String) (oldOp newOp : Operation) : List Change :=
  match getRequestBody oldOp, getRequestBody newOp with
  | some _, none =>
      [{ type := ChangeType.modified, path := path, method := method,
         description := "Request body removed", isBreaking := true }]
  | none, some newBody =>
      match alookup newBody "required" with
      | some (JValue.jbool true) =>
          [{ type := ChangeType.modified, path := path, method := method,
             description := "Required request body added", isBreaking := true }]
      | _ => []
  | _, _ => []

/-- The "Compare required fields" block of `Differ.compareOperations`:
one breaking change per entry of the new required-field list that the old
list does not contain. -/
def fieldChanges (path method : String) (oldOp newOp : Operation) : List Change :=
  (getRequiredFields newOp).filterMap (fun field =>
    if contains (getRequiredFields oldOp) field then none
    else some { type := ChangeType.modified, path := path, method := method,
                description := "New required field: " ++ field, isBreaking := true })

/-- The "Compare response codes" block of `Differ.compareOperations`. -/
def responseChanges (path method : String) (oldOp newOp : Operation) : List Change :=
  (getResponseCodes oldOp).filterMap (fun code =>
    if contains (getResponseCodes newOp) code then none
    else some { type := ChangeType.modified, path := path, method := method,
                description := "Response code " ++ code ++ " removed", isBreaking := true })

/-- The "Check for removed parameters" block of
`Differ.compareOperations`. -/
def removedParamChanges (path method : String) (oldOp newOp : Operation) : List Change :=
  (getParameters oldOp).filterMap (fun np =>
    if (alookup (getParameters newOp) np.1).isSome then none
    else some { type := ChangeType.modified, path := path, method := method,
                description := "Parameter '" ++ np.1 ++ "' removed", isBreaking := true })

/-- The "Check for new required parameters" block of
`Differ.compareOperations`. -/
def newParamChanges (path method : String) (oldOp newOp : Operation) : List Change :=
  (getParameters newOp).filterMap (fun np =>
    if (alookup (getParameters oldOp) np.1).isSome then none
    else if isParamRequired np.2 then
      some { type := ChangeType.modified, path := path, method := method,
             description := "New required parameter: " ++ np.1, isBreaking := true }
    else none)

/-- Model of `Differ.compareOperations` from diff.go: the per-operation sub-checks,
in source order (request-body presence, newly required fields, removed
response codes, removed parameters, new required parameters), each
emitting `Modified` changes. -/
def compareOperations (path method : String) (oldOp newOp : Operation) : List Change :=
  bodyChanges path method oldOp newOp
    ++ fieldChanges path method oldOp newOp
    ++ responseChanges path method oldOp newOp
    ++ removedParamChanges path method oldOp newOp
    ++ newParamChanges path method oldOp newOp

/-- Go string slicing `s[:n]`: `none` models the out-of-range panic.
Go slices and measures by bytes; we use characters.  Every pattern the
code compares against is ASCII, and a string's byte count is at least its
character count, so the comparisons agree and character-in-bounds implies
byte-in-bounds. -/
def strSliceTo (s : String) (n : Nat) : Option String :=
  if n ≤ s.length then some (String.mk (s.data.take n)) else none

/-- Fourth slicing case of `getMigrationGuide`
(`contains([]string{"New required parameter"}, change.Description[:21])`)
followed by the default case.  Note: a 21-character slice is compared
with the 22-character string `"New required parameter"`, which can never
succeed. -/
def migCase21 (desc : String) : Option String :=
  match strSliceTo desc 21 with
  | none => none
  | some s21 =>
    if contains ["New required parameter"] s21 then
      some "Add the new required parameter to client calls"
    else
      some "Review the change and update client code accordingly"

/-- Third slicing case of `getMigrationGuide`
(`contains([]string{"Parameter"}, change.Description[:9])`). -/
def migCase9 (desc : String) : Option String :=
  match strSliceTo desc 9 with
  | none => none
  | some s9 =>
    if contains ["Parameter"] s9 then
      some "Update client to remove usage of the deleted parameter"
    else migCase21 desc

/-- Second slicing case of `getMigrationGuide`
(`contains([]string{"Response code"}, change.Description[:13])`). -/
def migCase13 (desc : String) : Option String :=
  match strSliceTo desc 13 with
  | none => none
  | some s13 =>
    if contains ["Response code"] s13 then
      some "Update client to handle the removed response code"
    else migCase9 desc

/-- First slicing case of `getMigrationGuide`
(`contains([]string{"New required field"}, change.Description[:18])`). -/
def migCase18 (desc : String) : Option String :=
  match strSliceTo desc 18 with
  | none => none
  | some s18 =>
    if contains ["New required field"] s18 then
      some "Add the new required field to request payload"
    else migCase13 desc

/-- Model of `getMigrationGuide` from diff.go: maps a change description to a
migration hint by exact matches followed by fixed-length prefix
comparisons, in source order (the switch cases are the two equality
tests, then the 18-, 13-, 9- and 21-character slices, then the default).
`none` models the slicing panic when the description is too short. -/
def getMigrationGuide (change : Change) : Option String :=
  if change.description = "Request body removed" then
    some "Remove request body from client calls"
  else if change.description = "Required request body added" then
    some "Add required request body to client calls"
  else
    migCase18 change.description

/-- Total wrapper used inside `Compare`; theorem
`c5_compare_never_panics` shows the `none` branch (the Go panic) is
unreachable for every change `Compare` feeds to it. -/
def getMigrationGuideD (change : Change) : String :=
  (getMigrationGuide change).getD ""

/-- The absence test both endpoint loops of `Differ.Compare` use:
`!pathExists || methods[method] == nil`. -/
def pairMissing (paths : PathsMap) (path method : String) : Bool :=
  match alookup paths path with
  | none => true
  | some methods => (alookup methods method).isNone

/-- The "Find added endpoints" loop of `Differ.Compare`: one `Added`,
non-breaking change per path+method in the new paths that is absent from
the old paths. -/
def addedChanges (oldPaths newPaths : PathsMap) : List Change :=
  newPaths.flatMap (fun pm =>
    pm.2.filterMap (fun mo =>
      if pairMissing oldPaths pm.1 mo.1 then
        some { type := ChangeType.added, path := pm.1, method := mo.1,
               description := "New endpoint: " ++ mo.1 ++ " " ++ pm.1,
               isBreaking := false }
      else none))

/-- The path+method pairs visited by the "Find removed endpoints" loop of
`Differ.Compare`: present in the old paths, absent from the new.  Each
iteration appends one `Change` and one `BreakingChange`. -/
def removedPairs (oldPaths newPaths : PathsMap) : List (String × String) :=
  oldPaths.flatMap (fun pm =>
    pm.2.filterMap (fun mo =>
      if pairMissing newPaths pm.1 mo.1 then some (pm.1, mo.1) else none))

/-- The `Removed` change appended for one removed path+method pair. -/
def removedChange (path method : String) : Change :=
  { type := ChangeType.removed, path := path, method := method,
    description := "Removed endpoint: " ++ method ++ " " ++ path,
    isBreaking := true }

/-- The `BreakingChange` appended for one removed path+method pair. -/
def removedBreakingChange (path method : String) : BreakingChange :=
  { path := path, method := method,
    reason := "Endpoint removed",
    migration := "Update client code to use alternative endpoint or remove usage" }

/-- The "Find modified endpoints" loop of `Differ.Compare`: for every
path+method present in both documents, the per-operation change list. -/
def modifiedOps (oldPaths newPaths : PathsMap) : List (String × String × List Change) :=
  oldPaths.flatMap (fun pm =>
    match alookup newPaths pm.1 with
    | none => []
    | some newMethods =>
      pm.2.filterMap (fun mo =>
        match alookup newMethods mo.1 with
        | none => none
        | some newOp => some (pm.1, mo.1, compareOperations pm.1 mo.1 mo.2 newOp)))

/-- Model of `Differ.Compare` from diff.go.  The three loops append to
`diff.Changes` in order (added, removed, modified); the summary counters
are incremented in lockstep with the appends, which the functional
translation renders as lengths and counts of the same lists. -/
def Compare (oldSpec newSpec : Obj) : Diff :=
  let oldPaths := getPaths oldSpec
  let newPaths := getPaths newSpec
  let added := addedChanges oldPaths newPaths
  let removed := (removedPairs oldPaths newPaths).map (fun pm => removedChange pm.1 pm.2)
  let removedBrk := (removedPairs oldPaths newPaths).map (fun pm => removedBreakingChange pm.1 pm.2)
  let mods := modifiedOps oldPaths newPaths
  let modChanges := mods.flatMap (fun x => x.2.2)
  let modBrk := mods.flatMap (fun x =>
    (x.2.2.filter (fun c => c.isBreaking)).map (fun c =>
      { path := x.1, method := x.2.1, reason := c.description,
        migration := getMigrationGuideD c }))
  { oldVersion := getVersion oldSpec
    newVersion := getVersion newSpec
    changes := added ++ removed ++ modChanges
    breaking := removedBrk ++ modBrk
    summary :=
      { addedEndpoints := added.length
        removedEndpoints := removed.length
        modifiedEndpoints := (mods.filter (fun x => x.2.2.length > 0)).length
        breakingChanges := removed.length + (modChanges.filter (fun c => c.isBreaking)).length } }

/-- Model of `Diff.HasBreakingChanges` from diff.go. -/
def Diff.hasBreakingChanges (d : Diff) : Bool :=
  d.summary.breakingChanges > 0

/-- Model of `ChangelogEntry` from changelog.go.  `Date` holds `time.Now()`
already rendered in the `"2006-01-02"` layout; the ambient clock is
modelled as an explicit argument to `chGenerate`. -/
structure ChangelogEntry where
  version : String
  date : String
  added : List String
  changed : List String
  removed : List String
  fixed : List String
  breaking : List String
deriving Repr, DecidableEq

/-- The loop body of `ChangelogGenerator.Generate`: bucket one change's
description by kind, additionally collecting `Removed`/`Modified` changes
flagged breaking. -/
def chStep (entry : ChangelogEntry) (change : Change) : ChangelogEntry :=
  match change.type with
  | ChangeType.added =>
      { entry with added := entry.added ++ [change.description] }
  | ChangeType.removed =>
      let entry := { entry with removed := entry.removed ++ [change.description] }
      if change.isBreaking then
        { entry with breaking := entry.breaking ++ [change.description] }
      else entry
  | ChangeType.modified =>
      let entry := { entry with changed := entry.changed ++ [change.description] }
      if change.isBreaking then
        { entry with breaking := entry.breaking ++ [change.description] }
      else entry

/-- Model of `ChangelogGenerator.Generate` from changelog.go: one pass over
`diff.Changes` with `chStep`.  The `Fixed` bucket is never filled. -/
def chGenerate (diff : Diff) (date : String) : ChangelogEntry :=
  diff.changes.foldl chStep
    { version := diff.newVersion, date := date, added := [], changed := [],
      removed := [], fixed := [], breaking := [] }

/-- The bullet loop of `ChangelogEntry.ToMarkdown`: one `"- %s\n"` line
per item, written in order. -/
def bulletLines : List String → String
  | [] => ""
  | item :: rest => "- " ++ item ++ "\n" ++ bulletLines rest

/-- Model of `ChangelogEntry.ToMarkdown` from changelog.go: heading, then the
Breaking / Added / Changed / Removed sections, each written only when its
bucket is non-empty. -/
def ChangelogEntry.toMarkdown (e : ChangelogEntry) : String :=
  let sb := "## [" ++ e.version ++ "] - " ++ e.date ++ "\n\n"
  let sb := if e.breaking.length > 0 then
      sb ++ "### ⚠️ Breaking Changes\n\n" ++ bulletLines e.breaking ++ "\n"
    else sb
  let sb := if e.added.length > 0 then
      sb ++ "### Added\n\n" ++ bulletLines e.added ++ "\n"
    else sb
  let sb := if e.changed.length > 0 then
      sb ++ "### Changed\n\n" ++ bulletLines e.changed ++ "\n"
    else sb
  let sb := if e.removed.length > 0 then
      sb ++ "### Removed\n\n" ++ bulletLines e.removed ++ "\n"
    else sb
  sb

/-- Model of `GenerateChangelog` from changelog.go. -/
def generateChangelog (diff : Diff) (date : String) : String :=
  (chGenerate diff date).toMarkdown

/-- Model of `strings.Contains`. -/
def strContains (s sub : String) : Bool :=
  decide (List.IsInfix sub.data s.data)

/-- Model of `MigrationStep` from migration.go. -/
structure MigrationStep where
  title : String
  description : String
  before : String
  after : String
  endpoint : String
  method : String
deriving Repr, DecidableEq

/-- Model of `MigrationGuide` from migration.go. -/
structure MigrationGuide where
  fromVersion : String
  toVersion : String
  steps : List MigrationStep
deriving Repr, DecidableEq

/-- Model of `MigrationGenerator.createMigrationStep` from migration.go:
classifies a breaking change into a step template by substring-matching
its reason. -/
def createMigrationStep (breaking : BreakingChange) : MigrationStep :=
  if strContains breaking.reason "removed" then
    { title := "Handle removed endpoint: " ++ breaking.method ++ " " ++ breaking.path
      description := breaking.migration
      before := "// Old code using " ++ breaking.method ++ " " ++ breaking.path
      after := "// Remove or replace with alternative endpoint"
      endpoint := breaking.path, method := breaking.method }
  else if strContains breaking.reason "required" then
    { title := "Add required field for: " ++ breaking.method ++ " " ++ breaking.path
      description := breaking.migration
      before := "// Request without the new required field"
      after := "// Add the new required field to your request"
      endpoint := breaking.path, method := breaking.method }
  else if strContains breaking.reason "parameter" then
    { title := "Update parameters for: " ++ breaking.method ++ " " ++ breaking.path
      description := breaking.migration
      before := "// Old parameter usage"
      after := "// Updated parameter usage"
      endpoint := breaking.path, method := breaking.method }
  else
    { title := "Update: " ++ breaking.method ++ " " ++ breaking.path
      description := breaking.migration
      before := "", after := ""
      endpoint := breaking.path, method := breaking.method }

/-- Model of `MigrationGenerator.Generate` from migration.go: one step per
`BreakingChange`, in order. -/
def migGenerate (diff : Diff) : MigrationGuide :=
  { fromVersion := diff.oldVersion
    toVersion := diff.newVersion
    steps := diff.breaking.map createMigrationStep }

/-- The markdown block `MigrationGuide.ToMarkdown` writes for the step
numbered `n` (Go writes `i+1` for index `i`). -/
def stepBlock (n : Nat) (step : MigrationStep) : String :=
  let sb := "## " ++ toString n ++ ". " ++ step.title ++ "\n\n"
  let sb := sb ++ "**Endpoint:** `" ++ step.method ++ " " ++ step.endpoint ++ "`\n\n"
  let sb := sb ++ step.description ++ "\n\n"
  let sb := if step.before ≠ "" then
      sb ++ "**Before:**\n```\n" ++ step.before ++ "\n```\n\n"
    else sb
  let sb := if step.after ≠ "" then
      sb ++ "**After:**\n```\n" ++ step.after ++ "\n```\n\n"
    else sb
  sb

/-- The step loop of `MigrationGuide.ToMarkdown`, carrying the running
index (Go's `for i, step := range g.Steps`). -/
def renderSteps : Nat → List MigrationStep → String
  | _, [] => ""
  | i, step :: rest => stepBlock (i + 1) step ++ renderSteps (i + 1) rest

/-- Model of `MigrationGuide.ToMarkdown` from migration.go. -/
def MigrationGuide.toMarkdown (g : MigrationGuide) : String :=
  let sb := "# Migration Guide: " ++ g.fromVersion ++ " → " ++ g.toVersion ++ "\n\n"
  if g.steps.length = 0 then
    sb ++ "No breaking changes. No migration required.\n"
  else
    sb ++ "This guide covers " ++ toString g.steps.length
       ++ " breaking change(s) that require updates.\n\n"
       ++ renderSteps 0 g.steps

/-! ### Association-list lemmas -/

theorem alookup_mem {l : List (String × α)} {k : String} {v : α}
    (h : alookup l k = some v) : (k, v) ∈ l := by
  induction l with
  | nil => simp [alookup] at h
  | cons hd tl ih =>
    by_cases hk : hd.1 = k
    · simp only [alookup] at h
      rw [if_pos hk] at h
      cases h
      exact List.mem_cons.mpr (Or.inl (by rw [← hk]))
    · simp only [alookup] at h
      rw [if_neg hk] at h
      exact List.mem_cons_of_mem _ (ih h)

theorem alookup_isSome_of_mem {l : List (String × α)} {k : String} {v : α}
    (h : (k, v) ∈ l) : (alookup l k).isSome = true := by
  induction l with
  | nil => simp at h
  | cons hd tl ih =>
    rcases List.mem_cons.mp h with h1 | h1
    · simp [alookup, ← h1]
    · simp only [alookup]
      by_cases hk : hd.1 = k
      · simp [hk]
      · rw [if_neg hk]
        exact ih h1

theorem alookup_of_mem_nodup {l : List (String × α)} {k : String} {v : α}
    (hnd : NodupKeys l) (h : (k, v) ∈ l) : alookup l k = some v := by
  induction l with
  | nil => simp at h
  | cons hd tl ih =>
    rcases List.mem_cons.mp h with h1 | h1
    · simp [alookup, ← h1]
    · simp only [alookup]
      have hk : hd.1 ≠ k := by
        intro he
        have : k ∈ tl.map Prod.fst := List.mem_map_of_mem Prod.fst h1
        have hnd' := hnd
        simp only [NodupKeys, List.map_cons, List.nodup_cons] at hnd'
        exact hnd'.1 (he ▸ this)
      rw [if_neg hk]
      exact ih (List.Nodup.of_cons hnd) h1

theorem keys_insertOver (l : List (String × α)) (k : String) (v : α) :
    (insertOver l k v).map Prod.fst =
      if k ∈ l.map Prod.fst then l.map Prod.fst else l.map Prod.fst ++ [k] := by
  induction l with
  | nil => simp [insertOver]
  | cons hd tl ih =>
    by_cases hk : hd.1 = k
    · simp [insertOver, hk]
    · simp only [insertOver, if_neg hk, List.map_cons, ih]
      by_cases hmem : k ∈ tl.map Prod.fst
      · rw [if_pos hmem, if_pos (List.mem_cons_of_mem _ hmem)]
      · rw [if_neg hmem, if_neg (by
          intro hc
          rcases List.mem_cons.mp hc with h1 | h1
          · exact hk h1.symm
          · exact hmem h1)]
        simp

theorem nodupKeys_insertOver {l : List (String × α)} (hnd : NodupKeys l)
    (k : String) (v : α) : NodupKeys (insertOver l k v) := by
  unfold NodupKeys
  rw [keys_insertOver]
  by_cases hmem : k ∈ l.map Prod.fst
  · rw [if_pos hmem]; exact hnd
  · rw [if_neg hmem]
    refine List.Nodup.append hnd (List.nodup_singleton k) ?_
    intro a ha hb
    rw [List.mem_singleton] at hb
    subst hb
    exact hmem ha

theorem mem_insertOver {l : List (String × α)} {k a : String} {v b : α}
    (h : (a, b) ∈ insertOver l k v) : (a, b) ∈ l ∨ (a = k ∧ b = v) := by
  induction l with
  | nil =>
    simp [insertOver] at h
    exact Or.inr h
  | cons hd tl ih =>
    by_cases hk : hd.1 = k
    · simp only [insertOver, if_pos hk] at h
      rcases List.mem_cons.mp h with h1 | h1
      · right; exact ⟨congrArg Prod.fst h1, congrArg Prod.snd h1⟩
      · left; exact List.mem_cons_of_mem _ h1
    · simp only [insertOver, if_neg hk] at h
      rcases List.mem_cons.mp h with h1 | h1
      · left; exact h1 ▸ List.mem_cons_self _ _
      · rcases ih h1 with h2 | h2
        · left; exact List.mem_cons_of_mem _ h2
        · right; exact h2

theorem foldl_invariant {γ β : Type _} (P : γ → Prop) (step : γ → β → γ)
    (h : ∀ acc b, P acc → P (step acc b)) :
    ∀ (l : List β) (acc : γ), P acc → P (l.foldl step acc) := by
  intro l
  induction l with
  | nil => intro acc hacc; exact hacc
  | cons hd tl ih => intro acc hacc; exact ih _ (h acc hd hacc)

/-- Well-formedness that every `getPaths` result enjoys: distinct path
keys, and distinct method keys under every path (Go maps). -/
def PathsWF (P : PathsMap) : Prop :=
  NodupKeys P ∧ ∀ p ms, (p, ms) ∈ P → NodupKeys ms

theorem nodupKeys_nil : NodupKeys ([] : List (String × α)) := by
  simp [NodupKeys]

theorem pathsWF_getPaths (spec : Obj) : PathsWF (getPaths spec) := by
  unfold getPaths
  cases halt : alookup spec "paths" with
  | none => exact ⟨nodupKeys_nil, by simp⟩
  | some v =>
    cases v with
    | jobj paths =>
      apply foldl_invariant PathsWF
      · intro acc pm hacc
        have hinner : NodupKeys (match pm.2 with
          | JValue.jobj methodMap =>
            methodMap.foldl (fun acc mo =>
              match mo.2 with
              | JValue.jobj opMap => insertOver acc mo.1 opMap
              | _ => acc) []
          | _ => []) := by
          cases pm.2 with
          | jobj methodMap =>
            apply foldl_invariant NodupKeys
            · intro acc2 mo hacc2
              cases mo.2 with
              | jobj opMap => exact nodupKeys_insertOver hacc2 _ _
              | jnull => exact hacc2
              | jbool b => exact hacc2
              | jnum n => exact hacc2
              | jstr s => exact hacc2
              | jarr es => exact hacc2
            · exact nodupKeys_nil
          | jnull => exact nodupKeys_nil
          | jbool b => exact nodupKeys_nil
          | jnum n => exact nodupKeys_nil
          | jstr s => exact nodupKeys_nil
          | jarr es => exact nodupKeys_nil
        constructor
        · exact nodupKeys_insertOver hacc.1 _ _
        · intro p ms hmem
          rcases mem_insertOver hmem with h1 | h1
          · exact hacc.2 p ms h1
          · exact h1.2 ▸ hinner
      · exact ⟨nodupKeys_nil, by simp⟩
    | jnull => exact ⟨nodupKeys_nil, by simp⟩
    | jbool b => exact ⟨nodupKeys_nil, by simp⟩
    | jnum n => exact ⟨nodupKeys_nil, by simp⟩
    | jstr s => exact ⟨nodupKeys_nil, by simp⟩
    | jarr es => exact ⟨nodupKeys_nil, by simp⟩

/-! ### Comparing a document with itself -/

theorem contains_of_mem {l : List String} {x : String} (h : x ∈ l) :
    contains l x = true := by
  induction l with
  | nil => simp at h
  | cons hd tl ih =>
    rcases List.mem_cons.mp h with h1 | h1
    · simp [contains, h1]
    · simp only [contains]
      by_cases he : hd = x
      · simp [he]
      · rw [if_neg he]
        exact ih h1

theorem bodyChanges_self (path method : String) (op : Operation) :
    bodyChanges path method op op = [] := by
  unfold bodyChanges
  cases getRequestBody op <;> rfl

theorem fieldChanges_self (path method : String) (op : Operation) :
    fieldChanges path method op op = [] := by
  unfold fieldChanges
  rw [List.filterMap_eq_nil_iff]
  intro a ha
  rw [if_pos (contains_of_mem ha)]

theorem responseChanges_self (path method : String) (op : Operation) :
    responseChanges path method op op = [] := by
  unfold responseChanges
  rw [List.filterMap_eq_nil_iff]
  intro a ha
  rw [if_pos (contains_of_mem ha)]

theorem removedParamChanges_self (path method : String) (op : Operation) :
    removedParamChanges path method op op = [] := by
  unfold removedParamChanges
  rw [List.filterMap_eq_nil_iff]
  intro a ha
  rw [if_pos (alookup_isSome_of_mem (show (a.1, a.2) ∈ getParameters op from ha))]

theorem newParamChanges_self (path method : String) (op : Operation) :
    newParamChanges path method op op = [] := by
  unfold newParamChanges
  rw [List.filterMap_eq_nil_iff]
  intro a ha
  rw [if_pos (alookup_isSome_of_mem (show (a.1, a.2) ∈ getParameters op from ha))]

theorem compareOperations_self (path method : String) (op : Operation) :
    compareOperations path method op op = [] := by
  unfold compareOperations
  rw [bodyChanges_self, fieldChanges_self, responseChanges_self,
    removedParamChanges_self, newParamChanges_self]
  rfl

theorem pairMissing_self {P : PathsMap} (hwf : PathsWF P)
    {pm : String × Methods} (hpm : pm ∈ P) {mo : String × Operation}
    (hmo : mo ∈ pm.2) : pairMissing P pm.1 mo.1 = false := by
  unfold pairMissing
  rw [alookup_of_mem_nodup hwf.1 (show (pm.1, pm.2) ∈ P from hpm)]
  have hs : (alookup pm.2 mo.1).isSome = true :=
    alookup_isSome_of_mem (show (mo.1, mo.2) ∈ pm.2 from hmo)
  obtain ⟨v, hv⟩ := Option.isSome_iff_exists.mp hs
  show (alookup pm.2 mo.1).isNone = false
  rw [hv]
  rfl

theorem addedChanges_self {P : PathsMap} (hwf : PathsWF P) :
    addedChanges P P = [] := by
  unfold addedChanges
  rw [List.flatMap_eq_nil_iff]
  intro pm hpm
  rw [List.filterMap_eq_nil_iff]
  intro mo hmo
  simp [pairMissing_self hwf hpm hmo]

theorem removedPairs_self {P : PathsMap} (hwf : PathsWF P) :
    removedPairs P P = [] := by
  unfold removedPairs
  rw [List.flatMap_eq_nil_iff]
  intro pm hpm
  rw [List.filterMap_eq_nil_iff]
  intro mo hmo
  simp [pairMissing_self hwf hpm hmo]

theorem modifiedOps_self_changes {P : PathsMap} (hwf : PathsWF P) :
    ∀ x ∈ modifiedOps P P, x.2.2 = [] := by
  intro x hx
  unfold modifiedOps at hx
  rcases List.mem_flatMap.mp hx with ⟨pm, hpm, hx2⟩
  rw [alookup_of_mem_nodup hwf.1 (by exact hpm)] at hx2
  rcases List.mem_filterMap.mp hx2 with ⟨mo, hmo, heq⟩
  have hlook : alookup pm.2 mo.1 = some mo.2 :=
    alookup_of_mem_nodup (hwf.2 pm.1 pm.2 (by exact hpm)) (by exact hmo)
  rw [hlook] at heq
  cases heq
  exact compareOperations_self pm.1 mo.1 mo.2

/-- C2: Comparing any document with itself yields an empty change
list, an empty breaking list, and an all-zero summary. -/
theorem c2_compare_self (A : Obj) :
    (Compare A A).changes = [] ∧ (Compare A A).breaking = [] ∧
      (Compare A A).summary = ⟨0, 0, 0, 0⟩ := by
  have hwf := pathsWF_getPaths A
  have hadd := addedChanges_self hwf
  have hrem := removedPairs_self hwf
  have hmod := modifiedOps_self_changes hwf
  have hmodflat : (modifiedOps (getPaths A) (getPaths A)).flatMap (fun x => x.2.2) = [] := by
    rw [List.flatMap_eq_nil_iff]
    exact hmod
  have hmodbrk : (modifiedOps (getPaths A) (getPaths A)).flatMap (fun x =>
      (x.2.2.filter (fun c => c.isBreaking)).map (fun c =>
        ({ path := x.1, method := x.2.1, reason := c.description,
           migration := getMigrationGuideD c } : BreakingChange))) = [] := by
    rw [List.flatMap_eq_nil_iff]
    intro x hx
    rw [hmod x hx]
    rfl
  have hmodcnt : ((modifiedOps (getPaths A) (getPaths A)).filter
      (fun x => x.2.2.length > 0)) = [] := by
    rw [List.filter_eq_nil_iff]
    intro x hx
    rw [hmod x hx]
    simp
  unfold Compare
  simp only [hadd, hrem, hmodflat, hmodbrk, hmodcnt, List.map_nil, List.nil_append,
    List.append_nil, List.length_nil, List.filter_nil]
  exact ⟨trivial, trivial, trivial⟩

/-! ### Shape of the changes each phase emits -/

theorem mem_addedChanges {oldPaths newPaths : PathsMap} {c : Change}
    (h : c ∈ addedChanges oldPaths newPaths) :
    c.type = ChangeType.added ∧ c.isBreaking = false := by
  unfold addedChanges at h
  rcases List.mem_flatMap.mp h with ⟨pm, _, h2⟩
  rcases List.mem_filterMap.mp h2 with ⟨mo, _, heq⟩
  split at heq
  · cases heq
    exact ⟨rfl, rfl⟩
  · cases heq

theorem mem_bodyChanges {path method : String} {oldOp newOp : Operation} {c : Change}
    (h : c ∈ bodyChanges path method oldOp newOp) :
    c.type = ChangeType.modified ∧ c.isBreaking = true := by
  unfold bodyChanges at h
  split at h
  · rcases List.mem_singleton.mp h with rfl
    exact ⟨rfl, rfl⟩
  · split at h
    · rcases List.mem_singleton.mp h with rfl
      exact ⟨rfl, rfl⟩
    · cases h
  · cases h

theorem mem_compareOperations {path method : String} {oldOp newOp : Operation} {c : Change}
    (h : c ∈ compareOperations path method oldOp newOp) :
    c.type = ChangeType.modified ∧ c.isBreaking = true := by
  unfold compareOperations at h
  rcases List.mem_append.mp h with h1 | h1
  rcases List.mem_append.mp h1 with h2 | h2
  rcases List.mem_append.mp h2 with h3 | h3
  rcases List.mem_append.mp h3 with h4 | h4
  · exact mem_bodyChanges h4
  · unfold fieldChanges at h4
    rcases List.mem_filterMap.mp h4 with ⟨a, _, heq⟩
    split at heq
    · cases heq
    · cases heq; exact ⟨rfl, rfl⟩
  · unfold responseChanges at h3
    rcases List.mem_filterMap.mp h3 with ⟨a, _, heq⟩
    split at heq
    · cases heq
    · cases heq; exact ⟨rfl, rfl⟩
  · unfold removedParamChanges at h2
    rcases List.mem_filterMap.mp h2 with ⟨a, _, heq⟩
    split at heq
    · cases heq
    · cases heq; exact ⟨rfl, rfl⟩
  · unfold newParamChanges at h1
    rcases List.mem_filterMap.mp h1 with ⟨a, _, heq⟩
    split at heq
    · cases heq
    · split at heq
      · cases heq; exact ⟨rfl, rfl⟩
      · cases heq

theorem mem_modChanges {oldPaths newPaths : PathsMap} {c : Change}
    (h : c ∈ (modifiedOps oldPaths newPaths).flatMap (fun x => x.2.2)) :
    c.type = ChangeType.modified ∧ c.isBreaking = true := by
  rcases List.mem_flatMap.mp h with ⟨x, hx, hc⟩
  unfold modifiedOps at hx
  rcases List.mem_flatMap.mp hx with ⟨pm, _, hx2⟩
  split at hx2
  · cases hx2
  · rcases List.mem_filterMap.mp hx2 with ⟨mo, _, heq⟩
    split at heq
    · cases heq
    · cases heq
      exact mem_compareOperations hc

theorem length_flatMap_map {α β γ : Type _} (l : List α) (g : α → List β)
    (h : α → β → γ) :
    (l.flatMap (fun x => (g x).map (h x))).length = (l.flatMap g).length := by
  induction l with
  | nil => rfl
  | cons hd tl ih => simp [List.flatMap_cons, List.length_append, ih]

/-- C1: For every pair of documents, the summary's breaking-change
counter equals the length of the `Breaking` list and the number of
changes flagged breaking, and added-endpoint changes are never
breaking (so only removed/modified changes feed `Breaking`). -/
theorem c1_summary_consistency (oldSpec newSpec : Obj) :
    (Compare oldSpec newSpec).summary.breakingChanges
        = (Compare oldSpec newSpec).breaking.length ∧
      (Compare oldSpec newSpec).summary.breakingChanges
        = ((Compare oldSpec newSpec).changes.filter (fun c => c.isBreaking)).length ∧
      ∀ c ∈ (Compare oldSpec newSpec).changes,
        c.type = ChangeType.added → c.isBreaking = false := by
  unfold Compare
  simp only []
  refine ⟨?_, ?_, ?_⟩
  · -- breakingChanges = len(Breaking)
    rw [List.length_append, List.length_map, List.length_map]
    congr 1
    rw [List.filter_flatMap, length_flatMap_map]
  · -- breakingChanges = count of breaking changes
    rw [List.filter_append, List.filter_append, List.length_append, List.length_append]
    have h1 : (addedChanges (getPaths oldSpec) (getPaths newSpec)).filter
        (fun c => c.isBreaking) = [] := by
      rw [List.filter_eq_nil_iff]
      intro c hc
      simp [(mem_addedChanges hc).2]
    have h2 : ((removedPairs (getPaths oldSpec) (getPaths newSpec)).map
          (fun pm => removedChange pm.1 pm.2)).filter (fun c => c.isBreaking)
        = (removedPairs (getPaths oldSpec) (getPaths newSpec)).map
          (fun pm => removedChange pm.1 pm.2) := by
      rw [List.filter_eq_self]
      intro c hc
      rcases List.mem_map.mp hc with ⟨pm, _, rfl⟩
      rfl
    rw [h1, h2]
    simp
  · intro c hc hadd
    rcases List.mem_append.mp hc with h1 | h1
    rcases List.mem_append.mp h1 with h2 | h2
    · exact (mem_addedChanges h2).2
    · rcases List.mem_map.mp h2 with ⟨pm, _, rfl⟩
      cases hadd
    · have := (mem_modChanges h1).1
      rw [hadd] at this
      cases this

/-- C7: The change list of every `Compare` result is grouped as all
`Added` changes, then all `Removed` changes, then all `Modified`
changes. -/
theorem c7_changes_grouped (oldSpec newSpec : Obj) :
    ∃ a r m, (Compare oldSpec newSpec).changes = a ++ r ++ m ∧
      (∀ c ∈ a, c.type = ChangeType.added) ∧
      (∀ c ∈ r, c.type = ChangeType.removed) ∧
      (∀ c ∈ m, c.type = ChangeType.modified) := by
  refine ⟨addedChanges (getPaths oldSpec) (getPaths newSpec),
    (removedPairs (getPaths oldSpec) (getPaths newSpec)).map
      (fun pm => removedChange pm.1 pm.2),
    (modifiedOps (getPaths oldSpec) (getPaths newSpec)).flatMap (fun x => x.2.2),
    ?_, ?_, ?_, ?_⟩
  · simp only [Compare]
  · intro c hc
    exact (mem_addedChanges hc).1
  · intro c hc
    rcases List.mem_map.mp hc with ⟨pm, _, rfl⟩
    rfl
  · intro c hc
    exact (mem_modChanges hc).1

/-! ### Exactly-once counting for removed endpoints (C3) -/

theorem pairMissing_false_elim {P : PathsMap} {p m : String}
    (h : pairMissing P p m = false) :
    ∃ ms op, alookup P p = some ms ∧ alookup ms m = some op := by
  unfold pairMissing at h
  cases hp : alookup P p with
  | none => rw [hp] at h; cases h
  | some ms =>
    rw [hp] at h
    simp only [Option.isNone_eq_false_iff, Option.isSome_iff_exists] at h
    obtain ⟨op, hop⟩ := h
    exact ⟨ms, op, rfl, hop⟩

theorem filterMap_pairs_filter_nil {β : Type _} {ms : List (String × β)}
    (cond : String → Bool) (p m : String) (hm : m ∉ ms.map Prod.fst) :
    (ms.filterMap (fun mo => if cond mo.1 then some (p, mo.1) else none)).filter
      (fun q => decide (q.1 = p ∧ q.2 = m)) = [] := by
  rw [List.filter_eq_nil_iff]
  intro q hq
  rcases List.mem_filterMap.mp hq with ⟨mo, hmo, heq⟩
  split at heq
  · cases heq
    intro hc
    rw [decide_eq_true_eq] at hc
    exact hm (hc.2 ▸ List.mem_map_of_mem Prod.fst hmo)
  · cases heq

theorem filterMap_pairs_filter_singleton {β : Type _} {ms : List (String × β)}
    {cond : String → Bool} {p m : String} {op : β}
    (hnd : NodupKeys ms) (hmem : (m, op) ∈ ms) (hcond : cond m = true) :
    (ms.filterMap (fun mo => if cond mo.1 then some (p, mo.1) else none)).filter
      (fun q => decide (q.1 = p ∧ q.2 = m)) = [(p, m)] := by
  induction ms with
  | nil => simp at hmem
  | cons hd tl ih =>
    have hndtl : NodupKeys tl := List.Nodup.of_cons hnd
    rcases List.mem_cons.mp hmem with h1 | h1
    · -- the head is the (m, op) binding; the tail has no `m` key
      have hhd : hd.1 = m := by rw [← h1]
      have hmtl : m ∉ tl.map Prod.fst := by
        have := hnd
        simp only [NodupKeys, List.map_cons, List.nodup_cons] at this
        exact hhd ▸ this.1
      rw [List.filterMap_cons, hhd, if_pos hcond,
        List.filter_cons_of_pos (by simp),
        filterMap_pairs_filter_nil cond p m hmtl]
    · -- the binding is in the tail; the head key differs from `m`
      have hhd : hd.1 ≠ m := by
        intro he
        have := hnd
        simp only [NodupKeys, List.map_cons, List.nodup_cons] at this
        exact this.1 (he ▸ List.mem_map_of_mem Prod.fst h1)
      by_cases hc : cond hd.1 = true
      · rw [List.filterMap_cons, if_pos hc,
          List.filter_cons_of_neg (by simp [hhd])]
        exact ih hndtl h1
      · rw [List.filterMap_cons, if_neg hc]
        exact ih hndtl h1

theorem removedPairs_filter {oldP newP : PathsMap} (hwf : PathsWF oldP)
    {p m : String} (hpres : pairMissing oldP p m = false)
    (habs : pairMissing newP p m = true) :
    (removedPairs oldP newP).filter (fun q => decide (q.1 = p ∧ q.2 = m)) = [(p, m)] := by
  obtain ⟨ms, op, hms, hop⟩ := pairMissing_false_elim hpres
  have hmemP : (p, ms) ∈ oldP := alookup_mem hms
  have hmem : (m, op) ∈ ms := alookup_mem hop
  unfold removedPairs
  rw [List.filter_flatMap]
  obtain ⟨s, t, hst⟩ := List.append_of_mem hmemP
  have hkeys : p ∉ s.map Prod.fst ∧ p ∉ t.map Prod.fst := by
    have := hwf.1
    rw [hst] at this
    simp only [NodupKeys, List.map_append, List.map_cons] at this
    rw [List.nodup_append] at this
    refine ⟨fun hc => ?_, fun hc => ?_⟩
    · exact this.2.2 hc (List.mem_cons_self _ _)
    · have := this.2.1
      rw [List.nodup_cons] at this
      exact this.1 hc
  have hside : ∀ pm : String × Methods, pm.1 ≠ p →
      (pm.2.filterMap (fun mo =>
        if pairMissing newP pm.1 mo.1 then some (pm.1, mo.1) else none)).filter
        (fun q => decide (q.1 = p ∧ q.2 = m)) = [] := by
    intro pm hne
    rw [List.filter_eq_nil_iff]
    intro q hq
    rcases List.mem_filterMap.mp hq with ⟨mo, _, heq⟩
    split at heq
    · cases heq
      intro hc
      rw [decide_eq_true_eq] at hc
      exact hne hc.1
    · cases heq
  rw [hst]
  rw [List.flatMap_append, List.flatMap_cons]
  have hs : (s.flatMap (fun pm =>
      (pm.2.filterMap (fun mo =>
        if pairMissing newP pm.1 mo.1 then some (pm.1, mo.1) else none)).filter
        (fun q => decide (q.1 = p ∧ q.2 = m)))) = [] := by
    rw [List.flatMap_eq_nil_iff]
    intro pm hpm
    exact hside pm (fun he => hkeys.1 (he ▸ List.mem_map_of_mem Prod.fst hpm))
  have ht : (t.flatMap (fun pm =>
      (pm.2.filterMap (fun mo =>
        if pairMissing newP pm.1 mo.1 then some (pm.1, mo.1) else none)).filter
        (fun q => decide (q.1 = p ∧ q.2 = m)))) = [] := by
    rw [List.flatMap_eq_nil_iff]
    intro pm hpm
    exact hside pm (fun he => hkeys.2 (he ▸ List.mem_map_of_mem Prod.fst hpm))
  have hmid : ((p, ms).2.filterMap (fun mo =>
      if pairMissing newP (p, ms).1 mo.1 then some ((p, ms).1, mo.1) else none)).filter
      (fun q => decide (q.1 = p ∧ q.2 = m)) = [(p, m)] := by
    have hndms : NodupKeys ms := hwf.2 p ms hmemP
    exact filterMap_pairs_filter_singleton hndms hmem habs
  rw [hs, ht, hmid]
  rfl

theorem mem_modifiedOps_present {oldP newP : PathsMap}
    {x : String × String × List Change} (h : x ∈ modifiedOps oldP newP) :
    pairMissing newP x.1 x.2.1 = false := by
  unfold modifiedOps at h
  rcases List.mem_flatMap.mp h with ⟨pm, _, hx⟩
  cases halt : alookup newP pm.1 with
  | none => rw [halt] at hx; cases hx
  | some nms =>
    rw [halt] at hx
    rcases List.mem_filterMap.mp hx with ⟨mo, _, heq⟩
    cases hop : alookup nms mo.1 with
    | none => rw [hop] at heq; cases heq
    | some newOp =>
      rw [hop] at heq
      cases heq
      show pairMissing newP pm.1 mo.1 = false
      unfold pairMissing
      rw [halt]
      show (alookup nms mo.1).isNone = false
      rw [hop]
      rfl

theorem compare_changes_eq (oldSpec newSpec : Obj) :
    (Compare oldSpec newSpec).changes
      = addedChanges (getPaths oldSpec) (getPaths newSpec)
        ++ (removedPairs (getPaths oldSpec) (getPaths newSpec)).map
            (fun pm => removedChange pm.1 pm.2)
        ++ (modifiedOps (getPaths oldSpec) (getPaths newSpec)).flatMap
            (fun x => x.2.2) := by
  simp only [Compare]

theorem compare_breaking_eq (oldSpec newSpec : Obj) :
    (Compare oldSpec newSpec).breaking
      = ((removedPairs (getPaths oldSpec) (getPaths newSpec)).map
          (fun pm => removedBreakingChange pm.1 pm.2))
        ++ (modifiedOps (getPaths oldSpec) (getPaths newSpec)).flatMap (fun x =>
          (x.2.2.filter (fun c => c.isBreaking)).map (fun c =>
            ({ path := x.1, method := x.2.1, reason := c.description,
               migration := getMigrationGuideD c } : BreakingChange))) := by
  simp only [Compare]

theorem compare_removedEndpoints_eq (oldSpec newSpec : Obj) :
    (Compare oldSpec newSpec).summary.removedEndpoints
      = (removedPairs (getPaths oldSpec) (getPaths newSpec)).length := by
  simp only [Compare, List.length_map]

theorem compare_breakingChanges_eq (oldSpec newSpec : Obj) :
    (Compare oldSpec newSpec).summary.breakingChanges
      = (removedPairs (getPaths oldSpec) (getPaths newSpec)).length
        + (((modifiedOps (getPaths oldSpec) (getPaths newSpec)).flatMap
            (fun x => x.2.2)).filter (fun c => c.isBreaking)).length := by
  simp only [Compare, List.length_map]

/-- C3: A path+method pair present in the old document's paths but
absent from the new one produces exactly one `Removed`, breaking change,
exactly one `BreakingChange` with the fixed reason and migration text,
and is counted exactly once in both `removedEndpoints` and
`breakingChanges`. -/
theorem c3_removed_endpoint (oldSpec newSpec : Obj) (p m : String)
    (hpres : pairMissing (getPaths oldSpec) p m = false)
    (habs : pairMissing (getPaths newSpec) p m = true) :
    ((Compare oldSpec newSpec).changes.filter
        (fun c => decide (c.type = ChangeType.removed ∧ c.path = p ∧ c.method = m)))
        = [removedChange p m] ∧
      ((Compare oldSpec newSpec).breaking.filter
        (fun b => decide (b.path = p ∧ b.method = m)))
        = [removedBreakingChange p m] ∧
      ((removedPairs (getPaths oldSpec) (getPaths newSpec)).filter
        (fun q => decide (q.1 = p ∧ q.2 = m))).length = 1 ∧
      (Compare oldSpec newSpec).summary.removedEndpoints
        = (removedPairs (getPaths oldSpec) (getPaths newSpec)).length ∧
      (Compare oldSpec newSpec).summary.breakingChanges
        = (removedPairs (getPaths oldSpec) (getPaths newSpec)).length
          + (((modifiedOps (getPaths oldSpec) (getPaths newSpec)).flatMap
              (fun x => x.2.2)).filter (fun c => c.isBreaking)).length := by
  have hwf := pathsWF_getPaths oldSpec
  have hRF := removedPairs_filter hwf hpres habs
  refine ⟨?_, ?_, ?_, ?_, ?_⟩
  · -- the Changes list contains exactly the one Removed change
    rw [compare_changes_eq, List.filter_append, List.filter_append]
    have h1 : (addedChanges (getPaths oldSpec) (getPaths newSpec)).filter
        (fun c => decide (c.type = ChangeType.removed ∧ c.path = p ∧ c.method = m)) = [] := by
      rw [List.filter_eq_nil_iff]
      intro c hc
      simp [(mem_addedChanges hc).1]
    have h3 : (((modifiedOps (getPaths oldSpec) (getPaths newSpec)).flatMap
        (fun x => x.2.2)).filter
        (fun c => decide (c.type = ChangeType.removed ∧ c.path = p ∧ c.method = m))) = [] := by
      rw [List.filter_eq_nil_iff]
      intro c hc
      simp [(mem_modChanges hc).1]
    have h2 : (((removedPairs (getPaths oldSpec) (getPaths newSpec)).map
        (fun pm => removedChange pm.1 pm.2)).filter
        (fun c => decide (c.type = ChangeType.removed ∧ c.path = p ∧ c.method = m)))
        = [removedChange p m] := by
      rw [List.filter_map]
      have hcong : ((removedPairs (getPaths oldSpec) (getPaths newSpec)).filter
          ((fun c => decide (c.type = ChangeType.removed ∧ c.path = p ∧ c.method = m)) ∘
            (fun pm => removedChange pm.1 pm.2)))
          = ((removedPairs (getPaths oldSpec) (getPaths newSpec)).filter
            (fun q => decide (q.1 = p ∧ q.2 = m))) := by
        apply List.filter_congr
        intro q _
        simp [removedChange]
      rw [hcong, hRF]
      rfl
    rw [h1, h2, h3]
    rfl
  · -- the Breaking list contains exactly the one BreakingChange
    rw [compare_breaking_eq, List.filter_append]
    have h2 : (((removedPairs (getPaths oldSpec) (getPaths newSpec)).map
        (fun pm => removedBreakingChange pm.1 pm.2)).filter
        (fun b => decide (b.path = p ∧ b.method = m)))
        = [removedBreakingChange p m] := by
      rw [List.filter_map]
      have hcong : ((removedPairs (getPaths oldSpec) (getPaths newSpec)).filter
          ((fun b => decide (b.path = p ∧ b.method = m)) ∘
            (fun pm => removedBreakingChange pm.1 pm.2)))
          = ((removedPairs (getPaths oldSpec) (getPaths newSpec)).filter
            (fun q => decide (q.1 = p ∧ q.2 = m))) := by
        apply List.filter_congr
        intro q _
        simp [removedBreakingChange]
      rw [hcong, hRF]
      rfl
    have h3 : (((modifiedOps (getPaths oldSpec) (getPaths newSpec)).flatMap (fun x =>
        (x.2.2.filter (fun c => c.isBreaking)).map (fun c =>
          ({ path := x.1, method := x.2.1, reason := c.description,
             migration := getMigrationGuideD c } : BreakingChange)))).filter
        (fun b => decide (b.path = p ∧ b.method = m))) = [] := by
      rw [List.filter_eq_nil_iff]
      intro b hb
      rcases List.mem_flatMap.mp hb with ⟨x, hx, hbx⟩
      rcases List.mem_map.mp hbx with ⟨c, _, rfl⟩
      intro hcon
      rw [decide_eq_true_eq] at hcon
      have hmiss := mem_modifiedOps_present hx
      rw [show x.1 = p from hcon.1, show x.2.1 = m from hcon.2] at hmiss
      rw [habs] at hmiss
      cases hmiss
    rw [h2, h3]
    rfl
  · rw [hRF]
    rfl
  · exact compare_removedEndpoints_eq oldSpec newSpec
  · exact compare_breakingChanges_eq oldSpec newSpec

/-- A small concrete old document: paths `/gone` (get) and `/kept` (get). -/
def oldDocEx : Obj :=
  [("info", JValue.jobj [("version", JValue.jstr "1.0")]),
   ("paths", JValue.jobj [
     ("/gone", JValue.jobj [("get", JValue.jobj [])]),
     ("/kept", JValue.jobj [("get", JValue.jobj [])])])]

/-- A small concrete new document: only `/kept` (get) remains. -/
def newDocEx : Obj :=
  [("info", JValue.jobj [("version", JValue.jstr "2.0")]),
   ("paths", JValue.jobj [("/kept", JValue.jobj [("get", JValue.jobj [])])])]

/-- Witness for C3 at the concrete documents: `/gone get` is present in
the old paths, absent from the new, and yields exactly the one removed
change. -/
theorem c3_removed_endpoint_witness :
    pairMissing (getPaths oldDocEx) "/gone" "get" = false ∧
      pairMissing (getPaths newDocEx) "/gone" "get" = true ∧
      ((Compare oldDocEx newDocEx).changes.filter
        (fun c => decide (c.type = ChangeType.removed ∧ c.path = "/gone" ∧ c.method = "get")))
        = [removedChange "/gone" "get"] :=
  ⟨by decide, by decide,
    (c3_removed_endpoint oldDocEx newDocEx "/gone" "get" (by decide) (by decide)).1⟩

/-! ### String prefix inequalities for the generated descriptions -/

theorem strAppend_assoc (a b c : String) : a ++ b ++ c = a ++ (b ++ c) := by
  apply String.ext
  rw [String.data_append, String.data_append, String.data_append, String.data_append,
    List.append_assoc]

theorem append_ne_of_take (pre t : String) (n : Nat) (hn : n ≤ pre.length)
    (h : pre.data.take n ≠ t.data.take n) (x : String) : pre ++ x ≠ t := by
  intro he
  apply h
  rw [← he, String.data_append, List.take_append_of_le_length hn]

theorem append_ne_append_of_take (pre1 pre2 : String) (n : Nat)
    (h1 : n ≤ pre1.length) (h2 : n ≤ pre2.length)
    (h : pre1.data.take n ≠ pre2.data.take n) (x y : String) :
    pre1 ++ x ≠ pre2 ++ y := by
  intro he
  apply h
  have hd := congrArg String.data he
  rw [String.data_append, String.data_append] at hd
  calc pre1.data.take n = (pre1.data ++ x.data).take n :=
        (List.take_append_of_le_length h1).symm
    _ = (pre2.data ++ y.data).take n := by rw [hd]
    _ = pre2.data.take n := List.take_append_of_le_length h2

theorem string_append_left_cancel {pre x y : String} (h : pre ++ x = pre ++ y) :
    x = y := by
  apply String.ext
  have hd := congrArg String.data h
  rw [String.data_append, String.data_append] at hd
  exact List.append_cancel_left hd

/-! ### Shapes of the per-operation sub-check changes -/

theorem mem_bodyChanges_shape {path method : String} {oldOp newOp : Operation}
    {c : Change} (h : c ∈ bodyChanges path method oldOp newOp) :
    (c = { type := ChangeType.modified, path := path, method := method,
           description := "Request body removed", isBreaking := true }
      ∧ getRequestBody newOp = none)
    ∨ (c = { type := ChangeType.modified, path := path, method := method,
             description := "Required request body added", isBreaking := true }
      ∧ getRequestBody oldOp = none
      ∧ ∃ nb, getRequestBody newOp = some nb
          ∧ alookup nb "required" = some (JValue.jbool true)) := by
  unfold bodyChanges at h
  cases hold : getRequestBody oldOp with
  | some ob =>
    cases hnew : getRequestBody newOp with
    | none =>
      simp only [hold, hnew] at h
      left
      exact ⟨List.mem_singleton.mp h, rfl⟩
    | some nb => simp only [hold, hnew] at h; cases h
  | none =>
    cases hnew : getRequestBody newOp with
    | none => simp only [hold, hnew] at h; cases h
    | some nb =>
      simp only [hold, hnew] at h
      cases hreq : alookup nb "required" with
      | none => simp only [hreq] at h; cases h
      | some v =>
        simp only [hreq] at h
        cases v with
        | jbool b =>
          cases b with
          | false => cases h
          | true =>
            right
            exact ⟨List.mem_singleton.mp h, rfl, nb, rfl, hreq⟩
        | jnull => cases h
        | jnum n => cases h
        | jstr s => cases h
        | jarr es => cases h
        | jobj fs => cases h

theorem mem_fieldChanges_shape {path method : String} {oldOp newOp : Operation}
    {c : Change} (h : c ∈ fieldChanges path method oldOp newOp) :
    ∃ f, f ∈ getRequiredFields newOp
      ∧ contains (getRequiredFields oldOp) f = false
      ∧ c = { type := ChangeType.modified, path := path, method := method,
              description := "New required field: " ++ f, isBreaking := true } := by
  unfold fieldChanges at h
  rcases List.mem_filterMap.mp h with ⟨f, hf, heq⟩
  cases hc : contains (getRequiredFields oldOp) f with
  | true => rw [if_pos hc] at heq; cases heq
  | false =>
    rw [if_neg (by rw [hc]; exact Bool.false_ne_true)] at heq
    cases heq
    exact ⟨f, hf, hc, rfl⟩

theorem mem_responseChanges_shape {path method : String} {oldOp newOp : Operation}
    {c : Change} (h : c ∈ responseChanges path method oldOp newOp) :
    ∃ code, c = { type := ChangeType.modified, path := path, method := method,
                  description := "Response code " ++ code ++ " removed",
                  isBreaking := true } := by
  unfold responseChanges at h
  rcases List.mem_filterMap.mp h with ⟨code, _, heq⟩
  split at heq
  · cases heq
  · cases heq
    exact ⟨code, rfl⟩

theorem mem_removedParamChanges_shape {path method : String} {oldOp newOp : Operation}
    {c : Change} (h : c ∈ removedParamChanges path method oldOp newOp) :
    ∃ name, c = { type := ChangeType.modified, path := path, method := method,
                  description := "Parameter '" ++ name ++ "' removed",
                  isBreaking := true } := by
  unfold removedParamChanges at h
  rcases List.mem_filterMap.mp h with ⟨np, _, heq⟩
  split at heq
  · cases heq
  · cases heq
    exact ⟨np.1, rfl⟩

theorem mem_newParamChanges_shape {path method : String} {oldOp newOp : Operation}
    {c : Change} (h : c ∈ newParamChanges path method oldOp newOp) :
    ∃ name, c = { type := ChangeType.modified, path := path, method := method,
                  description := "New required parameter: " ++ name,
                  isBreaking := true } := by
  unfold newParamChanges at h
  rcases List.mem_filterMap.mp h with ⟨np, _, heq⟩
  split at heq
  · cases heq
  · split at heq
    · cases heq
      exact ⟨np.1, rfl⟩
    · cases heq

/-- C4: When the old operation has no request body and the new one
does, the per-operation comparison emits the breaking
"Required request body added" change exactly when the new body's
`required` field is the boolean `true`. -/
theorem c4_required_body_added (path method : String) (oldOp newOp : Operation)
    (nb : Obj) (hold : getRequestBody oldOp = none)
    (hnew : getRequestBody newOp = some nb) :
    (({ type := ChangeType.modified, path := path, method := method,
        description := "Required request body added", isBreaking := true } : Change)
        ∈ compareOperations path method oldOp newOp)
      ↔ alookup nb "required" = some (JValue.jbool true) := by
  constructor
  · intro h
    unfold compareOperations at h
    rcases List.mem_append.mp h with h1 | h1
    rcases List.mem_append.mp h1 with h2 | h2
    rcases List.mem_append.mp h2 with h3 | h3
    rcases List.mem_append.mp h3 with h4 | h4
    · rcases mem_bodyChanges_shape h4 with ⟨_, hnone⟩ | ⟨_, _, nb2, hnb2, hreq⟩
      · rw [hnew] at hnone; cases hnone
      · rw [hnew] at hnb2
        cases hnb2
        exact hreq
    · rcases mem_fieldChanges_shape h4 with ⟨f, _, _, hc⟩
      have hd := congrArg Change.description hc
      exact absurd hd.symm
        (append_ne_of_take "New required field: " "Required request body added"
          1 (by decide) (by decide) f)
    · rcases mem_responseChanges_shape h3 with ⟨code, hc⟩
      have hd := congrArg Change.description hc
      rw [strAppend_assoc] at hd
      exact absurd hd.symm
        (append_ne_of_take "Response code " "Required request body added"
          3 (by decide) (by decide) (code ++ " removed"))
    · rcases mem_removedParamChanges_shape h2 with ⟨name, hc⟩
      have hd := congrArg Change.description hc
      rw [strAppend_assoc] at hd
      exact absurd hd.symm
        (append_ne_of_take "Parameter '" "Required request body added"
          1 (by decide) (by decide) (name ++ "' removed"))
    · rcases mem_newParamChanges_shape h1 with ⟨name, hc⟩
      have hd := congrArg Change.description hc
      exact absurd hd.symm
        (append_ne_of_take "New required parameter: " "Required request body added"
          1 (by decide) (by decide) name)
  · intro hreq
    unfold compareOperations
    apply List.mem_append_left
    apply List.mem_append_left
    apply List.mem_append_left
    apply List.mem_append_left
    unfold bodyChanges
    simp only [hold, hnew, hreq, List.mem_singleton]

/-- An operation without a request body. -/
def opNoBodyEx : Operation := [("summary", JValue.jstr "create")]

/-- An operation whose request body is marked `required:true`. -/
def opReqBodyEx : Operation :=
  [("requestBody", JValue.jobj [("required", JValue.jbool true)])]

/-- Witness for C4 at concrete operations: adding a `required:true` body
emits the breaking change. -/
theorem c4_required_body_added_witness :
    getRequestBody opNoBodyEx = none ∧
      getRequestBody opReqBodyEx = some [("required", JValue.jbool true)] ∧
      (({ type := ChangeType.modified, path := "/pets", method := "post",
          description := "Required request body added", isBreaking := true } : Change)
        ∈ compareOperations "/pets" "post" opNoBodyEx opReqBodyEx) :=
  ⟨rfl, rfl,
    (c4_required_body_added "/pets" "post" opNoBodyEx opReqBodyEx
      [("required", JValue.jbool true)] rfl rfl).mpr rfl⟩

/-! ### Evaluation of the migration-hint cascade on generated descriptions -/

theorem le_length_append_left (x : String) {pre : String} {n : Nat}
    (hn : n ≤ pre.length) : n ≤ (pre ++ x).length := by
  rw [String.length_append]
  exact Nat.le_trans hn (Nat.le_add_right _ _)

theorem strSliceTo_of_le {s : String} {n : Nat} (h : n ≤ s.length) :
    strSliceTo s n = some (String.mk (s.data.take n)) := by
  unfold strSliceTo
  rw [if_pos h]

theorem strSliceTo_append_concrete (pre x : String) (n : Nat)
    (hn : n ≤ pre.length) :
    strSliceTo (pre ++ x) n = some (String.mk (pre.data.take n)) := by
  rw [strSliceTo_of_le (le_length_append_left x hn), String.data_append,
    List.take_append_of_le_length hn]

theorem contains_singleton_false {s item : String} (h : s ≠ item) :
    contains [s] item = false := by
  unfold contains
  rw [if_neg h]
  rfl

theorem take_prefix_ne {s t : String} (n k : Nat) (hk : k ≤ n)
    (h : s.data.take k ≠ t.data.take k) : String.mk (s.data.take n) ≠ t := by
  intro he
  apply h
  have hd : t.data.take k = s.data.take k := by
    rw [← he]
    show (s.data.take n).take k = s.data.take k
    rw [List.take_take, Nat.min_eq_left hk]
  exact hd.symm

theorem mig_desc_field (f : String) :
    migCase18 ("New required field: " ++ f)
      = some "Add the new required field to request payload" := by
  unfold migCase18
  rw [strSliceTo_append_concrete _ _ 18 (by decide)]
  show (if contains ["New required field"]
          (String.mk ("New required field: ".data.take 18)) = true
      then some "Add the new required field to request payload"
      else migCase13 ("New required field: " ++ f))
    = some "Add the new required field to request payload"
  rw [if_pos (by decide)]

theorem mig_desc_response (code : String) :
    migCase18 ("Response code " ++ (code ++ " removed"))
      = some "Update client to handle the removed response code" := by
  have hlen18 : 18 ≤ ("Response code " ++ (code ++ " removed")).length := by
    rw [String.length_append, String.length_append]
    have h1 : "Response code ".length = 14 := by decide
    have h2 : " removed".length = 8 := by decide
    omega
  have htake3 : ("Response code " ++ (code ++ " removed")).data.take 3
      = "Response code ".data.take 3 := by
    rw [String.data_append]
    exact List.take_append_of_le_length (by decide)
  have hc18 : contains ["New required field"]
      (String.mk (("Response code " ++ (code ++ " removed")).data.take 18)) = false :=
    contains_singleton_false
      (Ne.symm (take_prefix_ne 18 3 (by decide) (by rw [htake3]; decide)))
  unfold migCase18
  rw [strSliceTo_of_le hlen18]
  show (if contains ["New required field"]
          (String.mk (("Response code " ++ (code ++ " removed")).data.take 18)) = true
      then some "Add the new required field to request payload"
      else migCase13 ("Response code " ++ (code ++ " removed")))
    = some "Update client to handle the removed response code"
  rw [if_neg (by rw [hc18]; exact Bool.false_ne_true)]
  unfold migCase13
  rw [strSliceTo_of_le (Nat.le_trans (by decide) hlen18), String.data_append,
    List.take_append_of_le_length (by decide : (13 : Nat) ≤ "Response code ".data.length),
    show String.mk ("Response code ".data.take 13) = "Response code" from by decide]
  show (if contains ["Response code"] "Response code" = true
      then some "Update client to handle the removed response code"
      else migCase9 ("Response code " ++ (code ++ " removed")))
    = some "Update client to handle the removed response code"
  rw [if_pos (by decide)]

theorem mig_desc_removed_param (name : String) :
    migCase18 ("Parameter '" ++ (name ++ "' removed"))
      = some "Update client to remove usage of the deleted parameter" := by
  have hlen18 : 18 ≤ ("Parameter '" ++ (name ++ "' removed")).length := by
    rw [String.length_append, String.length_append]
    have h1 : "Parameter '".length = 11 := by decide
    have h2 : "' removed".length = 9 := by decide
    omega
  have htake1 : ("Parameter '" ++ (name ++ "' removed")).data.take 1
      = "Parameter '".data.take 1 := by
    rw [String.data_append]
    exact List.take_append_of_le_length (by decide)
  have hc18 : contains ["New required field"]
      (String.mk (("Parameter '" ++ (name ++ "' removed")).data.take 18)) = false :=
    contains_singleton_false
      (Ne.symm (take_prefix_ne 18 1 (by decide) (by rw [htake1]; decide)))
  have hc13 : contains ["Response code"]
      (String.mk (("Parameter '" ++ (name ++ "' removed")).data.take 13)) = false :=
    contains_singleton_false
      (Ne.symm (take_prefix_ne 13 1 (by decide) (by rw [htake1]; decide)))
  unfold migCase18
  rw [strSliceTo_of_le hlen18]
  show (if contains ["New required field"]
          (String.mk (("Parameter '" ++ (name ++ "' removed")).data.take 18)) = true
      then some "Add the new required field to request payload"
      else migCase13 ("Parameter '" ++ (name ++ "' removed")))
    = some "Update client to remove usage of the deleted parameter"
  rw [if_neg (by rw [hc18]; exact Bool.false_ne_true)]
  unfold migCase13
  rw [strSliceTo_of_le (Nat.le_trans (by decide) hlen18)]
  show (if contains ["Response code"]
          (String.mk (("Parameter '" ++ (name ++ "' removed")).data.take 13)) = true
      then some "Update client to handle the removed response code"
      else migCase9 ("Parameter '" ++ (name ++ "' removed")))
    = some "Update client to remove usage of the deleted parameter"
  rw [if_neg (by rw [hc13]; exact Bool.false_ne_true)]
  unfold migCase9
  rw [strSliceTo_append_concrete _ _ 9 (by decide)]
  show (if contains ["Parameter"]
          (String.mk ("Parameter '".data.take 9)) = true
      then some "Update client to remove usage of the deleted parameter"
      else migCase21 ("Parameter '" ++ (name ++ "' removed")))
    = some "Update client to remove usage of the deleted parameter"
  rw [if_pos (by decide)]

theorem mig_desc_new_param (name : String) :
    migCase18 ("New required parameter: " ++ name)
      = some "Review the change and update client code accordingly" := by
  unfold migCase18
  rw [strSliceTo_append_concrete _ _ 18 (by decide)]
  show (if contains ["New required field"]
          (String.mk ("New required parameter: ".data.take 18)) = true
      then some "Add the new required field to request payload"
      else migCase13 ("New required parameter: " ++ name))
    = some "Review the change and update client code accordingly"
  rw [if_neg (by decide)]
  unfold migCase13
  rw [strSliceTo_append_concrete _ _ 13 (by decide)]
  show (if contains ["Response code"]
          (String.mk ("New required parameter: ".data.take 13)) = true
      then some "Update client to handle the removed response code"
      else migCase9 ("New required parameter: " ++ name))
    = some "Review the change and update client code accordingly"
  rw [if_neg (by decide)]
  unfold migCase9
  rw [strSliceTo_append_concrete _ _ 9 (by decide)]
  show (if contains ["Parameter"]
          (String.mk ("New required parameter: ".data.take 9)) = true
      then some "Update client to remove usage of the deleted parameter"
      else migCase21 ("New required parameter: " ++ name))
    = some "Review the change and update client code accordingly"
  rw [if_neg (by decide)]
  unfold migCase21
  rw [strSliceTo_append_concrete _ _ 21 (by decide)]
  show (if contains ["New required parameter"]
          (String.mk ("New required parameter: ".data.take 21)) = true
      then some "Add the new required parameter to client calls"
      else some "Review the change and update client code accordingly")
    = some "Review the change and update client code accordingly"
  rw [if_neg (by decide)]

theorem getMigrationGuide_eq_cascade (c : Change)
    (h1 : c.description ≠ "Request body removed")
    (h2 : c.description ≠ "Required request body added") :
    getMigrationGuide c = migCase18 c.description := by
  unfold getMigrationGuide
  rw [if_neg h1, if_neg h2]

theorem getMigrationGuide_body_removed (c : Change)
    (h : c.description = "Request body removed") :
    getMigrationGuide c = some "Remove request body from client calls" := by
  unfold getMigrationGuide
  rw [h, if_pos rfl]

theorem getMigrationGuide_required_body (c : Change)
    (h : c.description = "Required request body added") :
    getMigrationGuide c = some "Add required request body to client calls" := by
  unfold getMigrationGuide
  rw [h, if_neg (by decide), if_pos rfl]

/-- C5: Every change the per-operation comparison emits (the only
changes `Compare` passes to the migration-hint computation) has a
description long enough for every slice the hint cascade takes: the
`none` branch that models Go's out-of-range slicing panic is never
reached, so `Compare` totalises and never panics. -/
theorem c5_compare_never_panics (path method : String) (oldOp newOp : Operation)
    (c : Change) (h : c ∈ compareOperations path method oldOp newOp) :
    (getMigrationGuide c).isSome = true := by
  unfold compareOperations at h
  rcases List.mem_append.mp h with h1 | h1
  rcases List.mem_append.mp h1 with h2 | h2
  rcases List.mem_append.mp h2 with h3 | h3
  rcases List.mem_append.mp h3 with h4 | h4
  · rcases mem_bodyChanges_shape h4 with ⟨rfl, _⟩ | ⟨rfl, _⟩
    · rw [getMigrationGuide_body_removed _ rfl]
      rfl
    · rw [getMigrationGuide_required_body _ rfl]
      rfl
  · rcases mem_fieldChanges_shape h4 with ⟨f, _, _, rfl⟩
    rw [getMigrationGuide_eq_cascade _
      (append_ne_of_take "New required field: " "Request body removed"
        1 (by decide) (by decide) f)
      (append_ne_of_take "New required field: " "Required request body added"
        1 (by decide) (by decide) f)]
    show (migCase18 ("New required field: " ++ f)).isSome = true
    rw [mig_desc_field f]
    rfl
  · rcases mem_responseChanges_shape h3 with ⟨code, rfl⟩
    have hne1 : ("Response code " ++ code ++ " removed") ≠ "Request body removed" := by
      rw [strAppend_assoc]
      exact append_ne_of_take "Response code " "Request body removed"
        3 (by decide) (by decide) (code ++ " removed")
    have hne2 : ("Response code " ++ code ++ " removed")
        ≠ "Required request body added" := by
      rw [strAppend_assoc]
      exact append_ne_of_take "Response code " "Required request body added"
        3 (by decide) (by decide) (code ++ " removed")
    rw [getMigrationGuide_eq_cascade _ hne1 hne2]
    show (migCase18 ("Response code " ++ code ++ " removed")).isSome = true
    rw [strAppend_assoc, mig_desc_response code]
    rfl
  · rcases mem_removedParamChanges_shape h2 with ⟨name, rfl⟩
    have hne1 : ("Parameter '" ++ name ++ "' removed") ≠ "Request body removed" := by
      rw [strAppend_assoc]
      exact append_ne_of_take "Parameter '" "Request body removed"
        1 (by decide) (by decide) (name ++ "' removed")
    have hne2 : ("Parameter '" ++ name ++ "' removed")
        ≠ "Required request body added" := by
      rw [strAppend_assoc]
      exact append_ne_of_take "Parameter '" "Required request body added"
        1 (by decide) (by decide) (name ++ "' removed")
    rw [getMigrationGuide_eq_cascade _ hne1 hne2]
    show (migCase18 ("Parameter '" ++ name ++ "' removed")).isSome = true
    rw [strAppend_assoc, mig_desc_removed_param name]
    rfl
  · rcases mem_newParamChanges_shape h1 with ⟨name, rfl⟩
    rw [getMigrationGuide_eq_cascade _
      (append_ne_of_take "New required parameter: " "Request body removed"
        1 (by decide) (by decide) name)
      (append_ne_of_take "New required parameter: " "Required request body added"
        1 (by decide) (by decide) name)]
    show (migCase18 ("New required parameter: " ++ name)).isSome = true
    rw [mig_desc_new_param name]
    rfl

/-- An operation with a `200` response. -/
def opRespEx : Operation := [("responses", JValue.jobj [("200", JValue.jobj [])])]

/-- An operation with no responses. -/
def opNoRespEx : Operation := [("responses", JValue.jobj [])]

/-- Witness for C5 at a concrete removed response code. -/
theorem c5_compare_never_panics_witness :
    (({ type := ChangeType.modified, path := "/p", method := "get",
        description := "Response code 200 removed", isBreaking := true } : Change)
      ∈ compareOperations "/p" "get" opRespEx opNoRespEx) ∧
    (getMigrationGuide
      { type := ChangeType.modified, path := "/p", method := "get",
        description := "Response code 200 removed", isBreaking := true }).isSome = true :=
  ⟨by decide,
    c5_compare_never_panics "/p" "get" opRespEx opNoRespEx _ (by decide)⟩

/-- C6 (code bug): The `Description[:21]` slice is compared with the
22-character string `"New required parameter"`, so the
"New required parameter" switch arm can never match: the concrete
breaking change "New required parameter: limit" receives the default
hint instead of "Add the new required parameter to client calls". -/
theorem c6_new_required_parameter_hint :
    getMigrationGuide
        { type := ChangeType.modified, path := "/items", method := "get",
          description := "New required parameter: limit", isBreaking := true }
      = some "Review the change and update client code accordingly" := by
  decide

/-! ### Migration-guide rendering (C9) -/

/-- Concatenation of a list of strings, in order. -/
def concatStrings : List String → String
  | [] => ""
  | s :: rest => s ++ concatStrings rest

theorem renderSteps_eq (l : List MigrationStep) :
    ∀ i, renderSteps i l
      = concatStrings ((l.enumFrom (i + 1)).map (fun p => stepBlock p.1 p.2)) := by
  induction l with
  | nil => intro i; rfl
  | cons s rest ih =>
    intro i
    show stepBlock (i + 1) s ++ renderSteps (i + 1) rest
      = stepBlock (i + 1) s ++ concatStrings ((rest.enumFrom (i + 1 + 1)).map
          (fun p => stepBlock p.1 p.2))
    rw [ih (i + 1)]

/-- C9: The migration guide has one step per `BreakingChange`, in
order; its rendering numbers them from 1, and when there are no breaking
changes it is the single "no migration required" message instead. -/
theorem c9_migration_guide_steps (d : Diff) :
    (migGenerate d).steps = d.breaking.map createMigrationStep ∧
      (d.breaking = [] →
        (migGenerate d).toMarkdown
          = "# Migration Guide: " ++ d.oldVersion ++ " → " ++ d.newVersion ++ "\n\n"
            ++ "No breaking changes. No migration required.\n") ∧
      (d.breaking ≠ [] →
        (migGenerate d).toMarkdown
          = "# Migration Guide: " ++ d.oldVersion ++ " → " ++ d.newVersion ++ "\n\n"
            ++ "This guide covers " ++ toString d.breaking.length
            ++ " breaking change(s) that require updates.\n\n"
            ++ concatStrings (((d.breaking.map createMigrationStep).enumFrom 1).map
                (fun p => stepBlock p.1 p.2))) := by
  refine ⟨rfl, ?_, ?_⟩
  · intro hb
    unfold MigrationGuide.toMarkdown
    rw [show (migGenerate d).steps = [] from by
      rw [show (migGenerate d).steps = d.breaking.map createMigrationStep from rfl,
        hb, List.map_nil]]
    rfl
  · intro hb
    have hlen : ¬((migGenerate d).steps.length = 0) := by
      show ¬((d.breaking.map createMigrationStep).length = 0)
      rw [List.length_map]
      exact fun h => hb (List.length_eq_zero.mp h)
    unfold MigrationGuide.toMarkdown
    rw [if_neg hlen]
    show "# Migration Guide: " ++ d.oldVersion ++ " → " ++ d.newVersion ++ "\n\n"
        ++ "This guide covers " ++ toString (d.breaking.map createMigrationStep).length
        ++ " breaking change(s) that require updates.\n\n"
        ++ renderSteps 0 (d.breaking.map createMigrationStep) = _
    rw [List.length_map, renderSteps_eq]

/-- A concrete diff with one breaking change. -/
def diffEx : Diff :=
  { oldVersion := "1.0", newVersion := "2.0", changes := []
    breaking := [removedBreakingChange "/gone" "get"]
    summary := { addedEndpoints := 0, removedEndpoints := 1,
                 modifiedEndpoints := 0, breakingChanges := 1 } }

/-- Witness for C9 at a concrete diff with one breaking change. -/
theorem c9_migration_guide_steps_witness :
    diffEx.breaking ≠ [] ∧
      (migGenerate diffEx).toMarkdown
        = "# Migration Guide: " ++ diffEx.oldVersion ++ " → " ++ diffEx.newVersion
          ++ "\n\n"
          ++ "This guide covers " ++ toString diffEx.breaking.length
          ++ " breaking change(s) that require updates.\n\n"
          ++ concatStrings (((diffEx.breaking.map createMigrationStep).enumFrom 1).map
              (fun p => stepBlock p.1 p.2)) :=
  ⟨by decide, (c9_migration_guide_steps diffEx).2.2 (by decide)⟩

/-! ### Changelog bucketing and rendering (C8) -/

/-- One optional changelog section: title plus bullet lines when the
bucket is non-empty, nothing otherwise. -/
def sectionIf (title : String) (items : List String) : String :=
  if items.length > 0 then title ++ bulletLines items ++ "\n" else ""

theorem chStep_foldl (l : List Change) :
    ∀ e : ChangelogEntry,
      (l.foldl chStep e).version = e.version
      ∧ (l.foldl chStep e).date = e.date
      ∧ (l.foldl chStep e).fixed = e.fixed
      ∧ (l.foldl chStep e).added
          = e.added ++ (l.filter (fun c => decide (c.type = ChangeType.added))).map
              (fun c => c.description)
      ∧ (l.foldl chStep e).removed
          = e.removed ++ (l.filter (fun c => decide (c.type = ChangeType.removed))).map
              (fun c => c.description)
      ∧ (l.foldl chStep e).changed
          = e.changed ++ (l.filter (fun c => decide (c.type = ChangeType.modified))).map
              (fun c => c.description)
      ∧ (l.foldl chStep e).breaking
          = e.breaking ++ (l.filter (fun c => decide
              ((c.type = ChangeType.removed ∨ c.type = ChangeType.modified)
                ∧ c.isBreaking = true))).map (fun c => c.description) := by
  induction l with
  | nil =>
    intro e
    refine ⟨rfl, rfl, rfl, ?_, ?_, ?_, ?_⟩ <;> simp
  | cons c l ih =>
    intro e
    cases htype : c.type with
    | added =>
      have hstep : chStep e c = { e with added := e.added ++ [c.description] } := by
        unfold chStep
        rw [htype]
      obtain ⟨ihv, ihd, ihf, iha, ihr, ihc, ihb⟩ :=
        ih { e with added := e.added ++ [c.description] }
      refine ⟨?_, ?_, ?_, ?_, ?_, ?_, ?_⟩ <;>
        simp [List.foldl_cons, hstep, ihv, ihd, ihf, iha, ihr, ihc, ihb,
          List.filter_cons, htype, List.append_assoc]
    | removed =>
      cases hbrk : c.isBreaking with
      | true =>
        have hstep : chStep e c
            = { e with removed := e.removed ++ [c.description],
                       breaking := e.breaking ++ [c.description] } := by
          unfold chStep
          rw [htype]
          simp [hbrk]
        obtain ⟨ihv, ihd, ihf, iha, ihr, ihc, ihb⟩ :=
          ih { e with removed := e.removed ++ [c.description],
                      breaking := e.breaking ++ [c.description] }
        refine ⟨?_, ?_, ?_, ?_, ?_, ?_, ?_⟩ <;>
          simp [List.foldl_cons, hstep, ihv, ihd, ihf, iha, ihr, ihc, ihb,
            List.filter_cons, htype, hbrk, List.append_assoc]
      | false =>
        have hstep : chStep e c
            = { e with removed := e.removed ++ [c.description] } := by
          unfold chStep
          rw [htype]
          simp [hbrk]
        obtain ⟨ihv, ihd, ihf, iha, ihr, ihc, ihb⟩ :=
          ih { e with removed := e.removed ++ [c.description] }
        refine ⟨?_, ?_, ?_, ?_, ?_, ?_, ?_⟩ <;>
          simp [List.foldl_cons, hstep, ihv, ihd, ihf, iha, ihr, ihc, ihb,
            List.filter_cons, htype, hbrk, List.append_assoc]
    | modified =>
      cases hbrk : c.isBreaking with
      | true =>
        have hstep : chStep e c
            = { e with changed := e.changed ++ [c.description],
                       breaking := e.breaking ++ [c.description] } := by
          unfold chStep
          rw [htype]
          simp [hbrk]
        obtain ⟨ihv, ihd, ihf, iha, ihr, ihc, ihb⟩ :=
          ih { e with changed := e.changed ++ [c.description],
                      breaking := e.breaking ++ [c.description] }
        refine ⟨?_, ?_, ?_, ?_, ?_, ?_, ?_⟩ <;>
          simp [List.foldl_cons, hstep, ihv, ihd, ihf, iha, ihr, ihc, ihb,
            List.filter_cons, htype, hbrk, List.append_assoc]
      | false =>
        have hstep : chStep e c
            = { e with changed := e.changed ++ [c.description] } := by
          unfold chStep
          rw [htype]
          simp [hbrk]
        obtain ⟨ihv, ihd, ihf, iha, ihr, ihc, ihb⟩ :=
          ih { e with changed := e.changed ++ [c.description] }
        refine ⟨?_, ?_, ?_, ?_, ?_, ?_, ?_⟩ <;>
          simp [List.foldl_cons, hstep, ihv, ihd, ihf, iha, ihr, ihc, ihb,
            List.filter_cons, htype, hbrk, List.append_assoc]

theorem strAppend_empty (s : String) : s ++ "" = s := by
  apply String.ext
  rw [String.data_append]
  exact List.append_nil _

theorem toMarkdown_sections (e : ChangelogEntry) :
    e.toMarkdown
      = "## [" ++ e.version ++ "] - " ++ e.date ++ "\n\n"
        ++ sectionIf "### ⚠️ Breaking Changes\n\n" e.breaking
        ++ sectionIf "### Added\n\n" e.added
        ++ sectionIf "### Changed\n\n" e.changed
        ++ sectionIf "### Removed\n\n" e.removed := by
  unfold ChangelogEntry.toMarkdown sectionIf
  apply String.ext
  by_cases h1 : e.breaking.length > 0 <;> by_cases h2 : e.added.length > 0 <;>
    by_cases h3 : e.changed.length > 0 <;> by_cases h4 : e.removed.length > 0 <;>
    simp [h1, h2, h3, h4, String.data_append]

/-- C8 (amended): The changelog generator buckets every change by
kind; `Removed` and `Modified` changes flagged breaking are additionally
collected into the Breaking bucket, while `Added` changes never are, even
when flagged breaking; the rendering puts the heading first, then the
Breaking, Added, Changed and Removed sections in that order, each omitted
when its bucket is empty. -/
theorem c8_changelog_buckets (d : Diff) (date : String) :
    (chGenerate d date).version = d.newVersion
    ∧ (chGenerate d date).added
        = (d.changes.filter (fun c => decide (c.type = ChangeType.added))).map
            (fun c => c.description)
    ∧ (chGenerate d date).removed
        = (d.changes.filter (fun c => decide (c.type = ChangeType.removed))).map
            (fun c => c.description)
    ∧ (chGenerate d date).changed
        = (d.changes.filter (fun c => decide (c.type = ChangeType.modified))).map
            (fun c => c.description)
    ∧ (chGenerate d date).breaking
        = (d.changes.filter (fun c => decide
            ((c.type = ChangeType.removed ∨ c.type = ChangeType.modified)
              ∧ c.isBreaking = true))).map (fun c => c.description)
    ∧ (chGenerate d date).fixed = []
    ∧ (chGenerate d date).toMarkdown
        = "## [" ++ d.newVersion ++ "] - " ++ date ++ "\n\n"
          ++ sectionIf "### ⚠️ Breaking Changes\n\n" (chGenerate d date).breaking
          ++ sectionIf "### Added\n\n" (chGenerate d date).added
          ++ sectionIf "### Changed\n\n" (chGenerate d date).changed
          ++ sectionIf "### Removed\n\n" (chGenerate d date).removed := by
  obtain ⟨hv, hd, hf, ha, hr, hc, hb⟩ := chStep_foldl d.changes
    { version := d.newVersion, date := date, added := [], changed := [],
      removed := [], fixed := [], breaking := [] }
  have hgen : chGenerate d date = d.changes.foldl chStep
      { version := d.newVersion, date := date, added := [], changed := [],
        removed := [], fixed := [], breaking := [] } := rfl
  refine ⟨?_, ?_, ?_, ?_, ?_, ?_, ?_⟩
  · rw [hgen, hv]
  · rw [hgen, ha]
    rfl
  · rw [hgen, hr]
    rfl
  · rw [hgen, hc]
    rfl
  · rw [hgen, hb]
    rfl
  · rw [hgen, hf]
  · rw [toMarkdown_sections, hgen, hv, hd]

/-- A diff whose single change is an `Added` change flagged breaking. -/
def diffBreakingAdded : Diff :=
  { oldVersion := "1.0", newVersion := "2.0"
    changes := [{ type := ChangeType.added, path := "/p", method := "get",
                  description := "New endpoint: get /p", isBreaking := true }]
    breaking := []
    summary := { addedEndpoints := 1, removedEndpoints := 0,
                 modifiedEndpoints := 0, breakingChanges := 0 } }

/-- C8 (counterexample): An `Added` change with `isBreaking = true`
is bucketed into Added only: its description does not appear in the
Breaking bucket, so it is absent from the "Breaking Changes" section. -/
theorem c8_breaking_added_not_collected :
    (({ type := ChangeType.added, path := "/p", method := "get",
        description := "New endpoint: get /p", isBreaking := true } : Change)
      ∈ diffBreakingAdded.changes)
    ∧ (chGenerate diffBreakingAdded "2026-01-01").breaking = []
    ∧ "New endpoint: get /p" ∉ (chGenerate diffBreakingAdded "2026-01-01").breaking := by
  refine ⟨by decide, by decide, by decide⟩

/-! ### Counting duplicated required fields (C10) -/

theorem flatMap_eq_of_unique {α β : Type _} {l : List (String × α)}
    (f : String × α → List β) {k : String} {v : α}
    (hnd : NodupKeys l) (hmem : (k, v) ∈ l)
    (hother : ∀ q b, (q, b) ∈ l → q ≠ k → f (q, b) = []) :
    l.flatMap f = f (k, v) := by
  induction l with
  | nil => simp at hmem
  | cons hd tl ih =>
    have hndtl : NodupKeys tl := List.Nodup.of_cons hnd
    rcases List.mem_cons.mp hmem with h1 | h1
    · have hk : hd.1 = k := by rw [← h1]
      have hknotin : k ∉ tl.map Prod.fst := by
        have := hnd
        simp only [NodupKeys, List.map_cons, List.nodup_cons] at this
        exact hk ▸ this.1
      have htl : tl.flatMap f = [] := by
        rw [List.flatMap_eq_nil_iff]
        intro q hq
        exact hother q.1 q.2 (List.mem_cons_of_mem _ hq)
          (fun he => hknotin (he ▸ List.mem_map_of_mem Prod.fst hq))
      rw [List.flatMap_cons, htl, List.append_nil, ← h1]
    · have hhd : hd.1 ≠ k := by
        intro he
        have := hnd
        simp only [NodupKeys, List.map_cons, List.nodup_cons] at this
        exact this.1 (he ▸ List.mem_map_of_mem Prod.fst h1)
      have hfhd : f hd = [] := hother hd.1 hd.2 (List.mem_cons_self _ _) hhd
      rw [List.flatMap_cons, hfhd, List.nil_append]
      exact ih hndtl h1 (fun q b hq hne => hother q b (List.mem_cons_of_mem _ hq) hne)

theorem flatMap_filterMap {α β γ : Type _} (l : List α) (g : α → Option β)
    (h : β → List γ) :
    (l.filterMap g).flatMap h
      = l.flatMap (fun a => match g a with | some b => h b | none => []) := by
  induction l with
  | nil => rfl
  | cons a l ih =>
    cases hg : g a with
    | none => simp [List.filterMap_cons, hg, List.flatMap_cons, ih]
    | some b => simp [List.filterMap_cons, hg, List.flatMap_cons, ih]

theorem compareOperations_path_method {path method : String}
    {oldOp newOp : Operation} {c : Change}
    (h : c ∈ compareOperations path method oldOp newOp) :
    c.path = path ∧ c.method = method := by
  unfold compareOperations at h
  rcases List.mem_append.mp h with h1 | h1
  rcases List.mem_append.mp h1 with h2 | h2
  rcases List.mem_append.mp h2 with h3 | h3
  rcases List.mem_append.mp h3 with h4 | h4
  · rcases mem_bodyChanges_shape h4 with ⟨rfl, _⟩ | ⟨rfl, _⟩ <;> exact ⟨rfl, rfl⟩
  · rcases mem_fieldChanges_shape h4 with ⟨f, _, _, rfl⟩
    exact ⟨rfl, rfl⟩
  · rcases mem_responseChanges_shape h3 with ⟨code, rfl⟩
    exact ⟨rfl, rfl⟩
  · rcases mem_removedParamChanges_shape h2 with ⟨name, rfl⟩
    exact ⟨rfl, rfl⟩
  · rcases mem_newParamChanges_shape h1 with ⟨name, rfl⟩
    exact ⟨rfl, rfl⟩

theorem flatMap_assoc2 {α β γ : Type _} (l : List α) (F : α → List β)
    (g : β → List γ) :
    (l.flatMap F).flatMap g = l.flatMap (fun a => (F a).flatMap g) := by
  induction l with
  | nil => rfl
  | cons a l ih =>
    rw [List.flatMap_cons, List.flatMap_append, List.flatMap_cons, ih]

/-- When a path+method pair exists in both documents, only that pair's
per-operation comparison can contribute changes at that path and method. -/
theorem modChanges_filter_unique {oldP newP : PathsMap} (hwf : PathsWF oldP)
    {p m : String} {oms : Methods} {oldOp : Operation} {nms : Methods}
    {newOp : Operation}
    (h1 : alookup oldP p = some oms) (h2 : alookup oms m = some oldOp)
    (h3 : alookup newP p = some nms) (h4 : alookup nms m = some newOp)
    (Q : Change → Bool) (hQ : ∀ c, Q c = true → c.path = p ∧ c.method = m) :
    ((modifiedOps oldP newP).flatMap (fun x => x.2.2)).filter Q
      = (compareOperations p m oldOp newOp).filter Q := by
  unfold modifiedOps
  rw [List.filter_flatMap, flatMap_assoc2]
  rw [flatMap_eq_of_unique _ hwf.1 (alookup_mem h1) ?other]
  case other =>
    intro q b hqb hne
    cases halt : alookup newP q with
    | none =>
      have halt2 : alookup newP (q, b).1 = none := halt
      simp only [halt2]
      rfl
    | some nm =>
      have halt2 : alookup newP (q, b).1 = some nm := halt
      simp only [halt2]
      rw [List.flatMap_eq_nil_iff]
      intro x hx
      rcases List.mem_filterMap.mp hx with ⟨mo, _, heq⟩
      cases hop : alookup nm mo.1 with
      | none => rw [hop] at heq; cases heq
      | some nop =>
        rw [hop] at heq
        cases heq
        rw [List.filter_eq_nil_iff]
        intro c hc
        intro hQc
        exact hne (((compareOperations_path_method hc).1).symm.trans (hQ c hQc).1)
  -- the unique (p, oms) entry contributes the (m, oldOp) comparison
  have halt3 : alookup newP (p, oms).1 = some nms := h3
  simp only [halt3]
  rw [flatMap_filterMap]
  rw [flatMap_eq_of_unique _ (hwf.2 p oms (alookup_mem h1)) (alookup_mem h2) ?omsother]
  case omsother =>
    intro q b hqb hne
    cases hop : alookup nms q with
    | none =>
      have hop2 : alookup nms (q, b).1 = none := hop
      simp only [hop2]
    | some nop =>
      have hop2 : alookup nms (q, b).1 = some nop := hop
      simp only [hop2]
      rw [List.filter_eq_nil_iff]
      intro c hc
      intro hQc
      exact hne (((compareOperations_path_method hc).2).symm.trans (hQ c hQc).2)
  have hop3 : alookup nms (m, oldOp).1 = some newOp := h4
  simp only [hop3]

theorem fieldChanges_filter_count (path method : String) (oldOp newOp : Operation)
    (f : String) (h5 : contains (getRequiredFields oldOp) f = false) :
    ((fieldChanges path method oldOp newOp).filter
        (fun c => decide (c.path = path ∧ c.method = method
          ∧ c.description = "New required field: " ++ f ∧ c.isBreaking = true))).length
      = (getRequiredFields newOp).count f := by
  unfold fieldChanges
  generalize getRequiredFields newOp = R
  induction R with
  | nil => rfl
  | cons x R ih =>
    rw [List.filterMap_cons]
    by_cases hx : x = f
    · subst hx
      rw [if_neg (by rw [h5]; exact Bool.false_ne_true)]
      rw [List.filter_cons_of_pos (by simp)]
      rw [List.length_cons, ih, List.count_cons]
      simp
    · by_cases hceq : contains (getRequiredFields oldOp) x = true
      · rw [if_pos hceq, ih, List.count_cons]
        simp [hx]
      · rw [if_neg hceq]
        rw [List.filter_cons_of_neg (by
          rw [decide_eq_true_eq]
          intro hcon
          exact hx (string_append_left_cancel hcon.2.2.1))]
        rw [ih, List.count_cons]
        simp [hx]

theorem bodyChanges_filter_field (path method : String) (oldOp newOp : Operation)
    (p m f : String) :
    ((bodyChanges path method oldOp newOp).filter
        (fun c => decide (c.path = p ∧ c.method = m
          ∧ c.description = "New required field: " ++ f ∧ c.isBreaking = true))) = [] := by
  rw [List.filter_eq_nil_iff]
  intro c hc
  rcases mem_bodyChanges_shape hc with ⟨rfl, _⟩ | ⟨rfl, _⟩
  · intro hcon
    rw [decide_eq_true_eq] at hcon
    exact absurd hcon.2.2.1.symm
      (append_ne_of_take "New required field: " "Request body removed"
        1 (by decide) (by decide) f)
  · intro hcon
    rw [decide_eq_true_eq] at hcon
    exact absurd hcon.2.2.1.symm
      (append_ne_of_take "New required field: " "Required request body added"
        1 (by decide) (by decide) f)

theorem responseChanges_filter_field (path method : String) (oldOp newOp : Operation)
    (p m f : String) :
    ((responseChanges path method oldOp newOp).filter
        (fun c => decide (c.path = p ∧ c.method = m
          ∧ c.description = "New required field: " ++ f ∧ c.isBreaking = true))) = [] := by
  rw [List.filter_eq_nil_iff]
  intro c hc
  rcases mem_responseChanges_shape hc with ⟨code, rfl⟩
  intro hcon
  rw [decide_eq_true_eq] at hcon
  have hd := hcon.2.2.1
  rw [strAppend_assoc] at hd
  exact absurd hd
    (append_ne_append_of_take "Response code " "New required field: "
      1 (by decide) (by decide) (by decide) (code ++ " removed") f)

theorem removedParamChanges_filter_field (path method : String)
    (oldOp newOp : Operation) (p m f : String) :
    ((removedParamChanges path method oldOp newOp).filter
        (fun c => decide (c.path = p ∧ c.method = m
          ∧ c.description = "New required field: " ++ f ∧ c.isBreaking = true))) = [] := by
  rw [List.filter_eq_nil_iff]
  intro c hc
  rcases mem_removedParamChanges_shape hc with ⟨name, rfl⟩
  intro hcon
  rw [decide_eq_true_eq] at hcon
  have hd := hcon.2.2.1
  rw [strAppend_assoc] at hd
  exact absurd hd
    (append_ne_append_of_take "Parameter '" "New required field: "
      1 (by decide) (by decide) (by decide) (name ++ "' removed") f)

theorem newParamChanges_filter_field (path method : String)
    (oldOp newOp : Operation) (p m f : String) :
    ((newParamChanges path method oldOp newOp).filter
        (fun c => decide (c.path = p ∧ c.method = m
          ∧ c.description = "New required field: " ++ f ∧ c.isBreaking = true))) = [] := by
  rw [List.filter_eq_nil_iff]
  intro c hc
  rcases mem_newParamChanges_shape hc with ⟨name, rfl⟩
  intro hcon
  rw [decide_eq_true_eq] at hcon
  exact absurd hcon.2.2.1
    (append_ne_append_of_take "New required parameter: " "New required field: "
      14 (by decide) (by decide) (by decide) name f)

theorem addedChanges_filter_field (oldP newP : PathsMap) (p m f : String) :
    ((addedChanges oldP newP).filter
        (fun c => decide (c.path = p ∧ c.method = m
          ∧ c.description = "New required field: " ++ f ∧ c.isBreaking = true))) = [] := by
  rw [List.filter_eq_nil_iff]
  intro c hc
  intro hcon
  rw [decide_eq_true_eq] at hcon
  rw [(mem_addedChanges hc).2] at hcon
  cases hcon.2.2.2

theorem removedChanges_filter_field (oldP newP : PathsMap) (p m f : String) :
    (((removedPairs oldP newP).map (fun pm => removedChange pm.1 pm.2)).filter
        (fun c => decide (c.path = p ∧ c.method = m
          ∧ c.description = "New required field: " ++ f ∧ c.isBreaking = true))) = [] := by
  rw [List.filter_eq_nil_iff]
  intro c hc
  rcases List.mem_map.mp hc with ⟨q, _, rfl⟩
  intro hcon
  rw [decide_eq_true_eq] at hcon
  have hd2 : "Removed endpoint: " ++ q.2 ++ " " ++ q.1
      = "New required field: " ++ f := hcon.2.2.1
  rw [strAppend_assoc, strAppend_assoc] at hd2
  exact absurd hd2
    (append_ne_append_of_take "Removed endpoint: " "New required field: "
      1 (by decide) (by decide) (by decide) (q.2 ++ (" " ++ q.1)) f)

/-- C10: When the new operation's required-field lists (concatenated
across media types by `getRequiredFields`) contain a field `f` several
times and `f` is not required in the old operation, `Compare` emits one
separate breaking "New required field" change per occurrence: the number
of such changes at that path and method equals the number of occurrences
of `f`, not the number of distinct field names. -/
theorem c10_duplicate_required_fields (oldSpec newSpec : Obj) (p m : String)
    (oms : Methods) (oldOp : Operation) (nms : Methods) (newOp : Operation)
    (f : String)
    (h1 : alookup (getPaths oldSpec) p = some oms)
    (h2 : alookup oms m = some oldOp)
    (h3 : alookup (getPaths newSpec) p = some nms)
    (h4 : alookup nms m = some newOp)
    (h5 : contains (getRequiredFields oldOp) f = false) :
    ((Compare oldSpec newSpec).changes.filter
        (fun c => decide (c.path = p ∧ c.method = m
          ∧ c.description = "New required field: " ++ f ∧ c.isBreaking = true))).length
      = (getRequiredFields newOp).count f := by
  rw [compare_changes_eq, List.filter_append, List.filter_append,
    List.length_append, List.length_append]
  rw [addedChanges_filter_field, removedChanges_filter_field]
  rw [modChanges_filter_unique (pathsWF_getPaths oldSpec) h1 h2 h3 h4 _
    (fun c hQc => by
      rw [decide_eq_true_eq] at hQc
      exact ⟨hQc.1, hQc.2.1⟩)]
  unfold compareOperations
  rw [List.filter_append, List.filter_append, List.filter_append, List.filter_append,
    List.length_append, List.length_append, List.length_append, List.length_append]
  rw [bodyChanges_filter_field, responseChanges_filter_field,
    removedParamChanges_filter_field, newParamChanges_filter_field,
    fieldChanges_filter_count p m oldOp newOp f h5]
  simp

/-- Old operation for the C10 witness: no request body. -/
def opOldC10 : Operation := [("summary", JValue.jstr "update")]

/-- New operation for the C10 witness: two media types whose schemas both
list `email` as required. -/
def opNewC10 : Operation :=
  [("requestBody", JValue.jobj [("content", JValue.jobj [
     ("application/json", JValue.jobj [("schema",
        JValue.jobj [("required", JValue.jarr [JValue.jstr "email"])])]),
     ("application/xml", JValue.jobj [("schema",
        JValue.jobj [("required", JValue.jarr [JValue.jstr "email"])])])])])]

/-- Old document for the C10 witness. -/
def oldDocC10 : Obj :=
  [("paths", JValue.jobj [("/u", JValue.jobj [("post", JValue.jobj opOldC10)])])]

/-- New document for the C10 witness. -/
def newDocC10 : Obj :=
  [("paths", JValue.jobj [("/u", JValue.jobj [("post", JValue.jobj opNewC10)])])]

/-- Witness for C10: `email` occurs twice across media types, producing
two separate breaking changes and `breakingChanges = 2`. -/
theorem c10_duplicate_required_fields_witness :
    contains (getRequiredFields opOldC10) "email" = false ∧
      (getRequiredFields opNewC10).count "email" = 2 ∧
      ((Compare oldDocC10 newDocC10).changes.filter
          (fun c => decide (c.path = "/u" ∧ c.method = "post"
            ∧ c.description = "New required field: " ++ "email"
            ∧ c.isBreaking = true))).length
        = (getRequiredFields opNewC10).count "email" ∧
      (Compare oldDocC10 newDocC10).summary.breakingChanges = 2 :=
  ⟨by decide, by decide,
    c10_duplicate_required_fields oldDocC10 newDocC10 "/u" "post" _ _ _ _ "email"
      rfl rfl rfl rfl (by decide),
    by decide⟩

end Versioning
